import Mathlib

/-!
Verification of the configcraft configuration-resolution core.

The Python source (src/configcraft/inherit.py) operates on JSON-like data:
dicts with string keys, lists, and scalars (str/int/bool/None).  We embed
this data model as the inductive type `Node`; Python dicts become
association lists that keep insertion order (new keys are appended at the
end, exactly like CPython dicts).  In-place mutation plus exceptions is
embedded by explicit state passing: every operation returns
`Except (Err × Node) Node`, where the error case carries the state of the
data argument at the moment the exception was raised (Python mutations
performed before a `raise` survive in the caller-visible object).
-/

namespace Configcraft

/-- Python scalar values (str / int / bool / None).  Scalars are opaque to
both engines; they are never descended into. -/
inductive Prim where
  | str : String → Prim
  | int : Int → Prim
  | bool : Bool → Prim
  | null : Prim
deriving DecidableEq, Repr

/-- A JSON-like node: scalar, dict (insertion-ordered association list with
string keys) or list. -/
inductive Node where
  | scalar : Prim → Node
  | mapping : List (String × Node) → Node
  | seq : List Node → Node

/-- The reserved Shared Section key (`SHARED = "_shared"` in inherit.py). -/
def SHARED : String := "_shared"

/-- Python `d[k]` read on a dict: the value of the first (for real dicts:
only) entry with key `k`. -/
def lookupFirst : List (String × Node) → String → Option Node
  | [], _ => none
  | (k, v) :: rest, key => if k = key then some v else lookupFirst rest key

/-- Python `d.setdefault(k, v)`: leave the dict unchanged when `k` is
present, otherwise append the new entry at the end (CPython insertion
order). -/
def setdefault (l : List (String × Node)) (k : String) (v : Node) :
    List (String × Node) :=
  if (lookupFirst l k).isSome then l else l ++ [(k, v)]

/-- Python `d[k] = v` for a key already present: replace the value of the
first entry with key `k`, keeping its position. -/
def updateFirst : List (String × Node) → String → Node → List (String × Node)
  | [], _, _ => []
  | (k, v) :: rest, key, nv =>
    if k = key then (k, nv) :: rest else (k, v) :: updateFirst rest key nv

/-- Python `d.pop(k)`: drop the first entry with key `k`. -/
def removeFirst : List (String × Node) → String → List (String × Node)
  | [], _ => []
  | (k, v) :: rest, key =>
    if k = key then rest else (k, v) :: removeFirst rest key

/-- Worker for `pySplitDot`: walk the characters, cutting a segment at every
dot; `acc` holds the characters of the current segment in reverse. -/
def splitDotAux : List Char → List Char → List String
  | [], acc => [String.mk acc.reverse]
  | c :: cs, acc =>
    if c = '.' then String.mk acc.reverse :: splitDotAux cs []
    else splitDotAux cs (c :: acc)

/-- Python `path.split(".")`: cut the string at every dot (`"" → [""]`,
`"a..b" → ["a", "", "b"]`). -/
def pySplitDot (s : String) : List String :=
  splitDotAux s.data []

/-- Python `sep.join(parts)`. -/
def pyJoin (sep : String) : List String → String
  | [] => ""
  | [x] => x
  | x :: y :: xs => x ++ sep ++ pyJoin sep (y :: xs)

/-- Python `path.endswith("*")`: for a one-character suffix this is exactly
"the last character of the string is `*`". -/
def pyEndsWithStar (s : String) : Bool :=
  s.data.getLast? == some '*'

/-- The exceptions the Python code can raise: `ValueError` (trailing
wildcard), `TypeError` (with its message), `KeyError` (with the missing
key) and `AttributeError` (calling `.items()` on a non-dict). -/
inductive Err where
  | valueErr : String → Err
  | typeErr : String → Err
  | keyErr : String → Err
  | attrErr : String → Err
deriving DecidableEq, Repr

/-- The `_error_tpl` message of inherit.py. -/
def error_tpl (p pfx key : String) : String :=
  "node at JSON path '" ++ p ++ "' is not a dict or list of dict! " ++
    "cannot set node value '" ++ pfx ++ "." ++ key ++ "' = ...!"

/-- `make_type_error(prefix, key)` from inherit.py. -/
def make_type_error (pfx key : String) : Err :=
  .typeErr (error_tpl (if pfx = "" then "." else pfx) pfx key)

/-- The data argument as it stands when the operation finishes: the result
on success, the partially mutated state on failure (Python's in-place
mutations survive a raise). -/
def stateOf : Except (Err × α) α → α
  | .ok n => n
  | .error (_, n) => n

/-- Run `f` over the elements of a Python list in order, stopping at the
first exception; the failure state keeps the already-processed prefix
(mutated in place) together with the element that failed (in its failure
state) and the untouched remainder. -/
def foldItems (f : Node → Except (Err × Node) Node) :
    List Node → Except (Err × List Node) (List Node)
  | [] => .ok []
  | x :: xs =>
    match f x with
    | .error (e, x') => .error (e, x' :: xs)
    | .ok x' =>
      match foldItems f xs with
      | .ok xs' => .ok (x' :: xs')
      | .error (e, xs') => .error (e, x' :: xs')

/-- Run `f` over the entries of a Python dict in insertion order (`for k, v
in data.items()`), replacing each value by its (possibly mutated) result;
same failure-state convention as `foldItems`. -/
def foldVals (f : String → Node → Except (Err × Node) Node) :
    List (String × Node) → Except (Err × List (String × Node)) (List (String × Node))
  | [] => .ok []
  | (k, v) :: rest =>
    match f k v with
    | .error (e, v') => .error (e, (k, v') :: rest)
    | .ok v' =>
      match foldVals f rest with
      | .ok rest' => .ok ((k, v') :: rest')
      | .error (e, rest') => .error (e, (k, v') :: rest')

/-- `inherit_value` of inherit.py, on the already-split path.  The source
re-joins `parts[1:]` with "." and re-splits it in the recursive call; the
segments contain no dot, so the round trip is the identity and the
recursion works directly on the segment list.  The `path.endswith("*")`
entry check is performed on the joined string, exactly as in the source.
`parts = []` cannot arise from `str.split`, which always returns at least
one segment; that branch is dead code returning the data unchanged. -/
def inheritAux : List String → Node → Node → String → Except (Err × Node) Node
  | parts, value, data, pfx =>
    if pyEndsWithStar (pyJoin "." parts) then
      .error (.valueErr "json path cannot ends with *!", data)
    else
      match parts with
      | [] => .ok data
      | [k] =>
        match data with
        | .mapping l => .ok (.mapping (setdefault l k value))
        | .seq items =>
          match foldItems
              (fun item =>
                match item with
                | .mapping m => .ok (.mapping (setdefault m k value))
                | other => .error (make_type_error pfx k, other))
              items with
          | .ok items' => .ok (.seq items')
          | .error (e, items') => .error (e, .seq items')
        | .scalar s => .error (make_type_error pfx k, .scalar s)
      | k :: k2 :: ks =>
        if k = "*" then
          match data with
          | .mapping l =>
            match foldVals
                (fun k' v' =>
                  if k' = SHARED then .ok v'
                  else inheritAux (k2 :: ks) value v' (pfx ++ "." ++ k))
                l with
            | .ok l' => .ok (.mapping l')
            | .error (e, l') => .error (e, .mapping l')
          | other => .error (.attrErr "items", other)
        else
          match data with
          | .mapping l =>
            match lookupFirst l k with
            | none => .error (.keyErr k, .mapping l)
            | some child =>
              match inheritAux (k2 :: ks) value child (pfx ++ "." ++ k) with
              | .ok child' => .ok (.mapping (updateFirst l k child'))
              | .error (e, child') => .error (e, .mapping (updateFirst l k child'))
          | .seq items =>
            match foldItems
                (fun item =>
                  match item with
                  | .mapping m =>
                    match lookupFirst m k with
                    | none => .error (.keyErr k, .mapping m)
                    | some child =>
                      match inheritAux (k2 :: ks) value child (pfx ++ "." ++ k) with
                      | .ok child' => .ok (.mapping (updateFirst m k child'))
                      | .error (e, child') =>
                        .error (e, .mapping (updateFirst m k child'))
                  | other => .error (.typeErr "object is not subscriptable", other))
                items with
            | .ok items' => .ok (.seq items')
            | .error (e, items') => .error (e, .seq items')
          | .scalar s => .error (make_type_error pfx k, .scalar s)
termination_by structural parts => parts

/-- `inherit_value(path, value, data)` of inherit.py: split the path on
dots and apply the default, starting with the empty diagnostic prefix. -/
def inherit_value (path : String) (value : Node) (data : Node) :
    Except (Err × Node) Node :=
  inheritAux (pySplitDot path) value data ""

example : inherit_value "key2" (.scalar (.str "value2"))
    (.mapping [("key1", .scalar (.str "value1"))]) =
    .ok (.mapping [("key1", .scalar (.str "value1")),
                   ("key2", .scalar (.str "value2"))]) := rfl

example : inherit_value "key1" (.scalar (.str "invalid"))
    (.mapping [("key1", .scalar (.str "value1"))]) =
    .ok (.mapping [("key1", .scalar (.str "value1"))]) := rfl

example : inherit_value "*" (.scalar .null)
    (.mapping [("k1", .scalar (.str "v1"))]) =
    .error (.valueErr "json path cannot ends with *!",
            .mapping [("k1", .scalar (.str "v1"))]) := rfl

example : inherit_value "*.key2" (.scalar (.str "value2"))
    (.mapping [("dev", .mapping [("key1", .scalar (.str "dev_value1"))]),
               ("prod", .mapping [("key1", .scalar (.str "prod_value1"))])]) =
    .ok (.mapping
      [("dev", .mapping [("key1", .scalar (.str "dev_value1")),
                         ("key2", .scalar (.str "value2"))]),
       ("prod", .mapping [("key1", .scalar (.str "prod_value1")),
                          ("key2", .scalar (.str "value2"))])]) := rfl

/-- The `for path, value in shared_data.items(): inherit_value(...)` loop of
`apply_inheritance`: apply each pattern of the popped Shared Section in
insertion order; an exception from `inherit_value` propagates, carrying the
partially mutated data. -/
def applyShared : List (String × Node) → Node → Except (Err × Node) Node
  | [], data => .ok data
  | (p, v) :: rest, data =>
    match inherit_value p v data with
    | .ok data' => applyShared rest data'
    | .error e => .error e

mutual

/-- `apply_inheritance(data)` of inherit.py.  First the recursion loop over
the entries (`step1Entries`), then: no Shared Section → done; otherwise pop
it and apply each of its `(pattern, value)` pairs via `inherit_value`.
Popping a Shared Section that is not a dict fails like Python does, with an
`AttributeError` on `.items()` (raised after the pop); so does calling the
function on a non-dict argument. -/
def applyInheritance : Node → Except (Err × Node) Node
  | .mapping l =>
    match step1Entries l with
    | .error (e, l') => .error (e, .mapping l')
    | .ok l' =>
      match lookupFirst l' SHARED with
      | none => .ok (.mapping l')
      | some sv =>
        match sv with
        | .mapping sd => applyShared sd (.mapping (removeFirst l' SHARED))
        | _ => .error (.attrErr "items", .mapping (removeFirst l' SHARED))
  | other => .error (.attrErr "items", other)
termination_by n => sizeOf n

/-- The `for key, value in data.items()` recursion loop of
`apply_inheritance`: skip the Shared Section key, recurse into dict values,
and recurse into the dict items of list values. -/
def step1Entries :
    List (String × Node) → Except (Err × List (String × Node)) (List (String × Node))
  | [] => .ok []
  | (k, v) :: rest =>
    if k = SHARED then
      match step1Entries rest with
      | .ok rest' => .ok ((k, v) :: rest')
      | .error (e, rest') => .error (e, (k, v) :: rest')
    else
      match v with
      | .mapping m =>
        match applyInheritance (.mapping m) with
        | .ok v' =>
          match step1Entries rest with
          | .ok rest' => .ok ((k, v') :: rest')
          | .error (e, rest') => .error (e, (k, v') :: rest')
        | .error (e, v') => .error (e, (k, v') :: rest)
      | .seq items =>
        match step1Items items with
        | .ok items' =>
          match step1Entries rest with
          | .ok rest' => .ok ((k, .seq items') :: rest')
          | .error (e, rest') => .error (e, (k, .seq items') :: rest')
        | .error (e, items') => .error (e, (k, .seq items') :: rest)
      | .scalar s =>
        match step1Entries rest with
        | .ok rest' => .ok ((k, .scalar s) :: rest')
        | .error (e, rest') => .error (e, (k, .scalar s) :: rest')
termination_by l => sizeOf l

/-- The `for item in value: if isinstance(item, dict): apply_inheritance(item)`
loop of `apply_inheritance`: recurse into the dict items of a list value,
leaving the other items untouched. -/
def step1Items : List Node → Except (Err × List Node) (List Node)
  | [] => .ok []
  | x :: xs =>
    match x with
    | .mapping m =>
      match applyInheritance (.mapping m) with
      | .ok x' =>
        match step1Items xs with
        | .ok xs' => .ok (x' :: xs')
        | .error (e, xs') => .error (e, x' :: xs')
      | .error (e, x') => .error (e, x' :: xs)
    | other =>
      match step1Items xs with
      | .ok xs' => .ok (other :: xs')
      | .error (e, xs') => .error (e, other :: xs')
termination_by l => sizeOf l

end

example : applyInheritance
    (.mapping [(SHARED, .mapping [("*.k", .scalar (.str "v"))]),
               ("a", .mapping [])]) =
    .ok (.mapping [("a", .mapping [("k", .scalar (.str "v"))])]) := by
  simp [applyInheritance, step1Entries, step1Items, applyShared, inherit_value,
    inheritAux, SHARED, lookupFirst, removeFirst, setdefault, updateFirst,
    foldVals, foldItems, pySplitDot, splitDotAux, pyJoin, pyEndsWithStar]

example : applyInheritance
    (.mapping
      [(SHARED, .mapping [("*.servers.*.cpu", .scalar (.int 1))]),
       ("dev", .mapping
         [("servers", .mapping
           [(SHARED, .mapping [("*.cpu", .scalar (.int 2))]),
            ("blue", .mapping [])])])]) =
    .ok (.mapping
      [("dev", .mapping
        [("servers", .mapping
          [("blue", .mapping [("cpu", .scalar (.int 2))])])])]) := by
  simp [applyInheritance, step1Entries, step1Items, applyShared, inherit_value,
    inheritAux, SHARED, lookupFirst, removeFirst, setdefault, updateFirst,
    foldVals, foldItems, pySplitDot, splitDotAux, pyJoin, pyEndsWithStar]

example : applyInheritance
    (.mapping [(SHARED, .mapping
      [("a", .mapping [(SHARED, .mapping [("b", .scalar (.int 1))])])])]) =
    .ok (.mapping
      [("a", .mapping [(SHARED, .mapping [("b", .scalar (.int 1))])])]) := by
  simp [applyInheritance, step1Entries, step1Items, applyShared, inherit_value,
    inheritAux, SHARED, lookupFirst, removeFirst, setdefault, updateFirst,
    foldVals, foldItems, pySplitDot, splitDotAux, pyJoin, pyEndsWithStar]

/-- One step of a concrete location in a tree: enter a dict field or a list
element. -/
inductive Step where
  | key : String → Step
  | idx : Nat → Step
deriving DecidableEq, Repr

/-- Read the node at a concrete location. -/
def getAt : Node → List Step → Option Node
  | n, [] => some n
  | .mapping l, .key k :: rest =>
    match lookupFirst l k with
    | some v => getAt v rest
    | none => none
  | .seq items, .idx i :: rest =>
    match items[i]? with
    | some v => getAt v rest
    | none => none
  | _, _ :: _ => none

/-- The concrete locations a split pattern designates, mirroring the
navigation of `inherit_value`: the final segment names a field of a dict
(`leafKey`) or of every element of a list of dicts (`leafIdx`); a wildcard
segment enters every field except the Shared Section; a literal segment
enters the named field of a dict (`litKey`) or of every list element
(`litIdx`). -/
inductive Matches : List String → List Step → Prop where
  | leafKey (k : String) : Matches [k] [.key k]
  | leafIdx (k : String) (i : Nat) : Matches [k] [.idx i, .key k]
  | wild (k : String) (rest : List String) (c : List Step)
      (hr : rest ≠ []) (hk : k ≠ SHARED) :
      Matches rest c → Matches ("*" :: rest) (.key k :: c)
  | litKey (k : String) (rest : List String) (c : List Step)
      (hr : rest ≠ []) (hk : k ≠ "*") :
      Matches rest c → Matches (k :: rest) (.key k :: c)
  | litIdx (k : String) (rest : List String) (i : Nat) (c : List Step)
      (hr : rest ≠ []) (hk : k ≠ "*") :
      Matches rest c → Matches (k :: rest) (.idx i :: .key k :: c)

/-- `lookupFirst` distributes over append: the left list wins. -/
theorem lookupFirst_append (a b : List (String × Node)) (k : String) :
    lookupFirst (a ++ b) k =
      match lookupFirst a k with
      | some v => some v
      | none => lookupFirst b k := by
  induction a with
  | nil => simp [lookupFirst]
  | cons p rest ih =>
    obtain ⟨k', v'⟩ := p
    by_cases h : k' = k <;> simp [lookupFirst, h, ih]

/-- A present key stays present, with the same value, after `setdefault`. -/
theorem lookupFirst_setdefault_of_some (l : List (String × Node))
    (k j : String) (v w : Node) (h : lookupFirst l j = some w) :
    lookupFirst (setdefault l k v) j = some w := by
  unfold setdefault
  by_cases hs : (lookupFirst l k).isSome
  · simp [hs, h]
  · simp [hs, lookupFirst_append, h]

/-- After `setdefault l k v`, key `k` is bound: to its old value if it was
present, to `v` otherwise. -/
theorem lookupFirst_setdefault_self (l : List (String × Node))
    (k : String) (v : Node) :
    lookupFirst (setdefault l k v) k =
      match lookupFirst l k with
      | some w => some w
      | none => some v := by
  unfold setdefault
  cases h : lookupFirst l k with
  | some w => simp [h]
  | none => simp [h, lookupFirst_append, lookupFirst]

/-- `updateFirst` rebinds a present key to the new value. -/
theorem lookupFirst_updateFirst_self (l : List (String × Node))
    (k : String) (nv : Node) (h : (lookupFirst l k).isSome) :
    lookupFirst (updateFirst l k nv) k = some nv := by
  induction l with
  | nil => simp [lookupFirst] at h
  | cons p rest ih =>
    obtain ⟨k', v'⟩ := p
    by_cases hk : k' = k
    · simp [lookupFirst, updateFirst, hk]
    · simp [lookupFirst, updateFirst, hk] at h ⊢
      exact ih h

/-- `updateFirst` leaves other keys alone. -/
theorem lookupFirst_updateFirst_ne (l : List (String × Node))
    (k j : String) (nv : Node) (h : j ≠ k) :
    lookupFirst (updateFirst l k nv) j = lookupFirst l j := by
  induction l with
  | nil => simp [updateFirst]
  | cons p rest ih =>
    obtain ⟨k', v'⟩ := p
    by_cases hk : k' = k
    · subst hk
      simp [lookupFirst, updateFirst, Ne.symm h]
    · by_cases hj : k' = j
      · subst hj
        simp [lookupFirst, updateFirst, hk]
      · simp [lookupFirst, updateFirst, hk, hj, ih]

/-- Lift a binary relation through `foldVals`: if `f` turns every value
into a related one (also in its failure state), then every binding of the
input dict survives into the outcome state of the fold, with a related
value. -/
theorem foldVals_lookup_rel (R : Node → Node → Prop)
    (f : String → Node → Except (Err × Node) Node)
    (hf : ∀ k v, R v (stateOf (f k v))) (hrefl : ∀ v, R v v) :
    ∀ (l : List (String × Node)) (j : String) (w : Node),
      lookupFirst l j = some w →
      ∃ w', lookupFirst (stateOf (foldVals f l)) j = some w' ∧ R w w' := by
  intro l
  induction l with
  | nil => intro j w h; simp [lookupFirst] at h
  | cons p rest ih =>
    obtain ⟨k, v⟩ := p
    intro j w h
    by_cases hj : k = j
    · subst hj
      have hv : v = w := by simpa [lookupFirst] using h
      subst hv
      have hR : R v (stateOf (f k v)) := hf k v
      cases hfv : f k v with
      | error e =>
        obtain ⟨err, v'⟩ := e
        rw [hfv] at hR
        exact ⟨v', by simp [foldVals, hfv, stateOf, lookupFirst], hR⟩
      | ok v' =>
        rw [hfv] at hR
        cases hrest : foldVals f rest with
        | ok rest' =>
          exact ⟨v', by simp [foldVals, hfv, hrest, stateOf, lookupFirst], hR⟩
        | error e =>
          obtain ⟨err, rest'⟩ := e
          exact ⟨v', by simp [foldVals, hfv, hrest, stateOf, lookupFirst], hR⟩
    · simp only [lookupFirst, if_neg hj] at h
      cases hfv : f k v with
      | error e =>
        obtain ⟨err, v'⟩ := e
        exact ⟨w, by simp [foldVals, hfv, stateOf, lookupFirst, hj, h], hrefl w⟩
      | ok v' =>
        obtain ⟨w', hw', hR⟩ := ih j w h
        cases hrest : foldVals f rest with
        | ok rest' =>
          rw [hrest] at hw'
          simp only [stateOf] at hw'
          exact ⟨w', by simp [foldVals, hfv, hrest, stateOf, lookupFirst, hj, hw'], hR⟩
        | error e =>
          obtain ⟨err, rest'⟩ := e
          rw [hrest] at hw'
          simp only [stateOf] at hw'
          exact ⟨w', by simp [foldVals, hfv, hrest, stateOf, lookupFirst, hj, hw'], hR⟩

/-- Lift a binary relation through `foldItems`: every element of the input
list survives at its position into the outcome state of the fold, related
to its original. -/
theorem foldItems_get_rel (R : Node → Node → Prop)
    (f : Node → Except (Err × Node) Node)
    (hf : ∀ x, R x (stateOf (f x))) (hrefl : ∀ x, R x x) :
    ∀ (l : List Node) (i : Nat) (x : Node),
      l[i]? = some x →
      ∃ x', (stateOf (foldItems f l))[i]? = some x' ∧ R x x' := by
  intro l
  induction l with
  | nil => intro i x h; simp at h
  | cons y rest ih =>
    intro i x h
    cases i with
    | zero =>
      have hx : x = y := by simpa using h.symm
      subst hx
      have hR : R x (stateOf (f x)) := hf x
      cases hfy : f x with
      | error e =>
        obtain ⟨err, x'⟩ := e
        rw [hfy] at hR
        exact ⟨x', by simp [foldItems, hfy, stateOf], hR⟩
      | ok x' =>
        rw [hfy] at hR
        cases hrest : foldItems f rest with
        | ok rest' => exact ⟨x', by simp [foldItems, hfy, hrest, stateOf], hR⟩
        | error e =>
          obtain ⟨err, rest'⟩ := e
          exact ⟨x', by simp [foldItems, hfy, hrest, stateOf], hR⟩
    | succ i' =>
      simp only [List.getElem?_cons_succ] at h
      cases hfy : f y with
      | error e =>
        obtain ⟨err, y'⟩ := e
        exact ⟨x, by simp [foldItems, hfy, stateOf, h], hrefl x⟩
      | ok y' =>
        obtain ⟨x', hx', hR⟩ := ih i' x h
        cases hrest : foldItems f rest with
        | ok rest' =>
          rw [hrest] at hx'
          simp only [stateOf] at hx'
          exact ⟨x', by simp [foldItems, hfy, hrest, stateOf, hx'], hR⟩
        | error e =>
          obtain ⟨err, rest'⟩ := e
          rw [hrest] at hx'
          simp only [stateOf] at hx'
          exact ⟨x', by simp [foldItems, hfy, hrest, stateOf, hx'], hR⟩

/-- Core non-destructiveness: whatever location the split pattern
designates, a value already stored there survives `inheritAux` unchanged —
on success and equally in the partially applied state left by a failure. -/
theorem inheritAux_preserves (parts : List String) (c : List Step)
    (hm : Matches parts c) :
    ∀ (value data : Node) (pfx : String) (v : Node),
      getAt data c = some v →
      getAt (stateOf (inheritAux parts value data pfx)) c = some v := by
  induction hm with
  | leafKey k =>
    intro value data pfx v hget
    by_cases hstar : pyEndsWithStar (pyJoin "." [k])
    · simp [inheritAux, hstar, stateOf, hget]
    · cases data with
      | mapping l =>
        have hl : lookupFirst l k = some v := by
          cases hlk : lookupFirst l k with
          | none => simp [getAt, hlk] at hget
          | some w => simpa [getAt, hlk] using hget
        simp [inheritAux, hstar, stateOf, getAt,
          lookupFirst_setdefault_of_some l k k value v hl]
      | seq items => simp [getAt] at hget
      | scalar s => simp [getAt] at hget
  | leafIdx k i =>
    intro value data pfx v hget
    by_cases hstar : pyEndsWithStar (pyJoin "." [k])
    · simp [inheritAux, hstar, stateOf, hget]
    · cases data with
      | mapping l => simp [getAt] at hget
      | scalar s => simp [getAt] at hget
      | seq items =>
        obtain ⟨item, hitem, hin⟩ :
            ∃ item, items[i]? = some item ∧ getAt item [Step.key k] = some v := by
          cases hit : items[i]? with
          | some item => exact ⟨item, rfl, by simpa [getAt, hit] using hget⟩
          | none => simp [getAt, hit] at hget
        have hrel := foldItems_get_rel
          (fun a b => ∀ u, getAt a [Step.key k] = some u → getAt b [Step.key k] = some u)
          (fun item =>
            match item with
            | .mapping m => .ok (.mapping (setdefault m k value))
            | other => .error (make_type_error pfx k, other))
          (by
            intro x u hu
            cases x with
            | mapping m =>
              have hm : lookupFirst m k = some u := by
                cases hlk : lookupFirst m k with
                | none => simp [getAt, hlk] at hu
                | some w => simpa [getAt, hlk] using hu
              simp [stateOf, getAt, lookupFirst_setdefault_of_some m k k value u hm]
            | seq xs => simp [getAt] at hu
            | scalar s => simp [getAt] at hu)
          (by intro x u hu; exact hu)
          items i item hitem
        obtain ⟨item', hitem', hR⟩ := hrel
        cases hfold : foldItems
            (fun item =>
              match item with
              | .mapping m => .ok (.mapping (setdefault m k value))
              | other => .error (make_type_error pfx k, other)) items with
        | ok items' =>
          rw [hfold] at hitem'
          simp only [stateOf] at hitem'
          simp [inheritAux, hstar, hfold, stateOf, getAt, hitem', hR v hin]
        | error e =>
          obtain ⟨err, items'⟩ := e
          rw [hfold] at hitem'
          simp only [stateOf] at hitem'
          simp [inheritAux, hstar, hfold, stateOf, getAt, hitem', hR v hin]
  | wild k rest c hr hk hmrest ih =>
    intro value data pfx v hget
    obtain ⟨r, rs, rfl⟩ : ∃ r rs, rest = r :: rs := by
      cases rest with
      | nil => exact absurd rfl hr
      | cons r rs => exact ⟨r, rs, rfl⟩
    by_cases hstar : pyEndsWithStar (pyJoin "." ("*" :: r :: rs))
    · simp [inheritAux, hstar, stateOf, hget]
    · cases data with
      | mapping l =>
        obtain ⟨w, hw, hin⟩ :
            ∃ w, lookupFirst l k = some w ∧ getAt w c = some v := by
          cases hlk : lookupFirst l k with
          | some w => exact ⟨w, rfl, by simpa [getAt, hlk] using hget⟩
          | none => simp [getAt, hlk] at hget
        have hrel := foldVals_lookup_rel
          (fun a b => ∀ u, getAt a c = some u → getAt b c = some u)
          (fun k' v' =>
            if k' = SHARED then .ok v'
            else inheritAux (r :: rs) value v' (pfx ++ "." ++ "*"))
          (by
            intro k' v' u hu
            by_cases hks : k' = SHARED
            · simp [hks, stateOf, hu]
            · simp only [hks, if_false, if_neg hks]
              exact ih value v' (pfx ++ "." ++ "*") u hu)
          (by intro x u hu; exact hu)
          l k w hw
        obtain ⟨w', hw', hR⟩ := hrel
        cases hfold : foldVals
            (fun k' v' =>
              if k' = SHARED then .ok v'
              else inheritAux (r :: rs) value v' (pfx ++ "." ++ "*")) l with
        | ok l' =>
          rw [hfold] at hw'
          simp only [stateOf] at hw'
          simp [inheritAux, hstar, hfold, stateOf, getAt, hw', hR v hin]
        | error e =>
          obtain ⟨err, l'⟩ := e
          rw [hfold] at hw'
          simp only [stateOf] at hw'
          simp [inheritAux, hstar, hfold, stateOf, getAt, hw', hR v hin]
      | seq items => simp [getAt] at hget
      | scalar s => simp [getAt] at hget
  | litKey k rest c hr hk hmrest ih =>
    intro value data pfx v hget
    obtain ⟨r, rs, rfl⟩ : ∃ r rs, rest = r :: rs := by
      cases rest with
      | nil => exact absurd rfl hr
      | cons r rs => exact ⟨r, rs, rfl⟩
    by_cases hstar : pyEndsWithStar (pyJoin "." (k :: r :: rs))
    · simp [inheritAux, hstar, stateOf, hget]
    · cases data with
      | mapping l =>
        obtain ⟨child, hchild, hin⟩ :
            ∃ child, lookupFirst l k = some child ∧ getAt child c = some v := by
          cases hlk : lookupFirst l k with
          | some child => exact ⟨child, rfl, by simpa [getAt, hlk] using hget⟩
          | none => simp [getAt, hlk] at hget
        have hsome : (lookupFirst l k).isSome := by simp [hchild]
        have hrec := ih value child (pfx ++ "." ++ k) v hin
        cases hcall : inheritAux (r :: rs) value child (pfx ++ "." ++ k) with
        | ok child' =>
          rw [hcall] at hrec
          simp only [stateOf] at hrec
          simp [inheritAux, hstar, hk, hchild, hcall, stateOf, getAt,
            lookupFirst_updateFirst_self l k child' hsome, hrec]
        | error e =>
          obtain ⟨err, child'⟩ := e
          rw [hcall] at hrec
          simp only [stateOf] at hrec
          simp [inheritAux, hstar, hk, hchild, hcall, stateOf, getAt,
            lookupFirst_updateFirst_self l k child' hsome, hrec]
      | seq items => simp [getAt] at hget
      | scalar s => simp [getAt] at hget
  | litIdx k rest i c hr hk hmrest ih =>
    intro value data pfx v hget
    obtain ⟨r, rs, rfl⟩ : ∃ r rs, rest = r :: rs := by
      cases rest with
      | nil => exact absurd rfl hr
      | cons r rs => exact ⟨r, rs, rfl⟩
    by_cases hstar : pyEndsWithStar (pyJoin "." (k :: r :: rs))
    · simp [inheritAux, hstar, stateOf, hget]
    · cases data with
      | mapping l => simp [getAt] at hget
      | scalar s => simp [getAt] at hget
      | seq items =>
        obtain ⟨item, hitem, hin⟩ :
            ∃ item, items[i]? = some item ∧ getAt item (Step.key k :: c) = some v := by
          cases hit : items[i]? with
          | some item => exact ⟨item, rfl, by simpa [getAt, hit] using hget⟩
          | none => simp [getAt, hit] at hget
        have hrel := foldItems_get_rel
          (fun a b => ∀ u, getAt a (Step.key k :: c) = some u →
            getAt b (Step.key k :: c) = some u)
          (fun item =>
            match item with
            | .mapping m =>
              match lookupFirst m k with
              | none => .error (.keyErr k, .mapping m)
              | some child =>
                match inheritAux (r :: rs) value child (pfx ++ "." ++ k) with
                | .ok child' => .ok (.mapping (updateFirst m k child'))
                | .error (e, child') => .error (e, .mapping (updateFirst m k child'))
            | other => .error (.typeErr "object is not subscriptable", other))
          (by
            intro x u hu
            cases x with
            | mapping m =>
              obtain ⟨child, hchild, hinc⟩ :
                  ∃ child, lookupFirst m k = some child ∧ getAt child c = some u := by
                cases hlk : lookupFirst m k with
                | some child => exact ⟨child, rfl, by simpa [getAt, hlk] using hu⟩
                | none => simp [getAt, hlk] at hu
              have hsome : (lookupFirst m k).isSome := by simp [hchild]
              have hrec := ih value child (pfx ++ "." ++ k) u hinc
              cases hcall : inheritAux (r :: rs) value child (pfx ++ "." ++ k) with
              | ok child' =>
                rw [hcall] at hrec
                simp only [stateOf] at hrec
                simp [hchild, hcall, stateOf, getAt,
                  lookupFirst_updateFirst_self m k child' hsome, hrec]
              | error e =>
                obtain ⟨err, child'⟩ := e
                rw [hcall] at hrec
                simp only [stateOf] at hrec
                simp [hchild, hcall, stateOf, getAt,
                  lookupFirst_updateFirst_self m k child' hsome, hrec]
            | seq xs => simp [getAt] at hu
            | scalar s => simp [getAt] at hu)
          (by intro x u hu; exact hu)
          items i item hitem
        obtain ⟨item', hitem', hR⟩ := hrel
        cases hfold : foldItems
            (fun item =>
              match item with
              | .mapping m =>
                match lookupFirst m k with
                | none => .error (.keyErr k, .mapping m)
                | some child =>
                  match inheritAux (r :: rs) value child (pfx ++ "." ++ k) with
                  | .ok child' => .ok (.mapping (updateFirst m k child'))
                  | .error (e, child') => .error (e, .mapping (updateFirst m k child'))
              | other => .error (.typeErr "object is not subscriptable", other))
            items with
        | ok items' =>
          rw [hfold] at hitem'
          simp only [stateOf] at hitem'
          simp [inheritAux, hstar, hk, hfold, stateOf, getAt, hitem', hR v hin]
        | error e =>
          obtain ⟨err, items'⟩ := e
          rw [hfold] at hitem'
          simp only [stateOf] at hitem'
          simp [inheritAux, hstar, hk, hfold, stateOf, getAt, hitem', hR v hin]

/-- C1: Non-destructiveness of inheritance.  For every tree `T`, pattern
`path` and default `value`, every location that the pattern designates
(`Matches`, including locations reached through wildcards and through
Sequence elements) which already holds a value `v` in `T` still holds `v`
after `inherit_value(path, value, T)` — in the successful result, and even
in the partially mutated state left behind by a failure. -/
theorem claim_C1_nondestructive (path : String) (value T : Node)
    (c : List Step) (v : Node)
    (hm : Matches (pySplitDot path) c) (hv : getAt T c = some v) :
    getAt (stateOf (inherit_value path value T)) c = some v := by
  unfold inherit_value
  exact inheritAux_preserves (pySplitDot path) c hm value T "" v hv

/-- Witness for C1 at a concrete input: `a.b` already holds `5` in the
tree, and still does after applying the default. -/
theorem claim_C1_nondestructive_witness :
    getAt (stateOf (inherit_value "a.b" (Node.scalar (Prim.str "x"))
        (Node.mapping [("a", Node.mapping [("b", Node.scalar (Prim.int 5))])])))
      [Step.key "a", Step.key "b"] = some (Node.scalar (Prim.int 5)) :=
  claim_C1_nondestructive "a.b" (Node.scalar (Prim.str "x"))
    (Node.mapping [("a", Node.mapping [("b", Node.scalar (Prim.int 5))])])
    [Step.key "a", Step.key "b"] (Node.scalar (Prim.int 5))
    (by
      have hsplit : pySplitDot "a.b" = ["a", "b"] := rfl
      rw [hsplit]
      exact Matches.litKey "a" ["b"] [Step.key "b"] (by simp) (by decide)
        (Matches.leafKey "b"))
    rfl

/-- Setting the same default twice on a dict is the same as setting it
once. -/
theorem setdefault_idem (l : List (String × Node)) (k : String) (v : Node) :
    setdefault (setdefault l k v) k v = setdefault l k v := by
  unfold setdefault
  by_cases h : (lookupFirst l k).isSome
  · simp [h]
  · simp [h, lookupFirst_append]
    cases hlk : lookupFirst l k with
    | some w => simp [hlk] at h
    | none => simp [lookupFirst]

/-- Rebinding a key twice to the same value is the same as rebinding it
once. -/
theorem updateFirst_idem (l : List (String × Node)) (k : String) (x : Node) :
    updateFirst (updateFirst l k x) k x = updateFirst l k x := by
  induction l with
  | nil => simp [updateFirst]
  | cons p rest ih =>
    obtain ⟨k', v'⟩ := p
    by_cases hk : k' = k
    · subst hk
      simp [updateFirst]
    · simp [updateFirst, hk, ih]

/-- A successful `foldItems` is a pointwise successful map. -/
theorem foldItems_ok_forall₂ (f : Node → Except (Err × Node) Node) :
    ∀ (l l' : List Node), foldItems f l = .ok l' →
      List.Forall₂ (fun x y => f x = .ok y) l l' := by
  intro l
  induction l with
  | nil =>
    intro l' h
    simp only [foldItems] at h
    cases h
    exact List.Forall₂.nil
  | cons x xs ih =>
    intro l' h
    simp only [foldItems] at h
    cases hfx : f x with
    | error e =>
      obtain ⟨err, x'⟩ := e
      rw [hfx] at h
      cases h
    | ok x' =>
      rw [hfx] at h
      cases hrest : foldItems f xs with
      | error e =>
        obtain ⟨err, xs'⟩ := e
        rw [hrest] at h
        cases h
      | ok xs' =>
        rw [hrest] at h
        cases h
        exact List.Forall₂.cons hfx (ih xs' hrest)

/-- `foldItems` succeeds, changing nothing, when `f` fixes every element. -/
theorem foldItems_ok_of_forall (f : Node → Except (Err × Node) Node) :
    ∀ (l : List Node), (∀ x ∈ l, f x = .ok x) → foldItems f l = .ok l := by
  intro l
  induction l with
  | nil => intro _; simp [foldItems]
  | cons x xs ih =>
    intro h
    have hx := h x (by simp)
    have hxs := ih (fun y hy => h y (by simp [hy]))
    simp [foldItems, hx, hxs]

/-- A successful `foldVals` is a pointwise successful map preserving the
keys. -/
theorem foldVals_ok_forall₂ (f : String → Node → Except (Err × Node) Node) :
    ∀ (l l' : List (String × Node)), foldVals f l = .ok l' →
      List.Forall₂ (fun p q => p.1 = q.1 ∧ f p.1 p.2 = .ok q.2) l l' := by
  intro l
  induction l with
  | nil =>
    intro l' h
    simp only [foldVals] at h
    cases h
    exact List.Forall₂.nil
  | cons p rest ih =>
    obtain ⟨k, v⟩ := p
    intro l' h
    simp only [foldVals] at h
    cases hfv : f k v with
    | error e =>
      obtain ⟨err, v'⟩ := e
      rw [hfv] at h
      cases h
    | ok v' =>
      rw [hfv] at h
      cases hrest : foldVals f rest with
      | error e =>
        obtain ⟨err, rest'⟩ := e
        rw [hrest] at h
        cases h
      | ok rest' =>
        rw [hrest] at h
        cases h
        exact List.Forall₂.cons ⟨rfl, hfv⟩ (ih rest' hrest)

/-- `foldVals` succeeds, changing nothing, when `f` fixes every entry. -/
theorem foldVals_ok_of_forall (f : String → Node → Except (Err × Node) Node) :
    ∀ (l : List (String × Node)), (∀ p ∈ l, f p.1 p.2 = .ok p.2) →
      foldVals f l = .ok l := by
  intro l
  induction l with
  | nil => intro _; simp [foldVals]
  | cons p rest ih =>
    obtain ⟨k, v⟩ := p
    intro h
    have hp := h (k, v) (by simp)
    have hrest := ih (fun q hq => h q (by simp [hq]))
    simp at hp
    simp [foldVals, hp, hrest]

/-- Pointwise inversion of `List.Forall₂` at a member of the right list. -/
theorem mem_right_of_forall₂ {α β : Type} {R : α → β → Prop} :
    ∀ {l : List α} {l' : List β}, List.Forall₂ R l l' →
      ∀ y ∈ l', ∃ x ∈ l, R x y := by
  intro l l' h
  induction h with
  | nil => intro y hy; cases hy
  | cons hR hrest ih =>
    intro y hy
    rcases List.mem_cons.mp hy with rfl | hy'
    · exact ⟨_, by simp, hR⟩
    · obtain ⟨x, hx, hxR⟩ := ih y hy'
      exact ⟨x, by simp [hx], hxR⟩

section BranchEquations

/-- Branch equation: the `path.endswith("*")` entry check fires. -/
theorem inheritAux_star (parts : List String) (value data : Node) (pfx : String)
    (h : pyEndsWithStar (pyJoin "." parts) = true) :
    inheritAux parts value data pfx =
      .error (.valueErr "json path cannot ends with *!", data) := by
  unfold inheritAux
  rw [if_pos h]

/-- Branch equation: a one-segment pattern on a dict is a `setdefault`. -/
theorem inheritAux_leaf_mapping (k : String) (value : Node) (pfx : String)
    (l : List (String × Node)) (h : ¬ pyEndsWithStar (pyJoin "." [k]) = true) :
    inheritAux [k] value (.mapping l) pfx = .ok (.mapping (setdefault l k value)) := by
  simp [inheritAux, h]

/-- Branch equation: a one-segment pattern on a list runs `setdefault` over
the elements, failing on the first non-dict. -/
theorem inheritAux_leaf_seq (k : String) (value : Node) (pfx : String)
    (items : List Node) (h : ¬ pyEndsWithStar (pyJoin "." [k]) = true) :
    inheritAux [k] value (.seq items) pfx =
      match foldItems
          (fun item =>
            match item with
            | Node.mapping m => Except.ok (Node.mapping (setdefault m k value))
            | other => Except.error (make_type_error pfx k, other))
          items with
      | .ok items' => .ok (.seq items')
      | .error (e, items') => .error (e, .seq items') := by
  simp [inheritAux, h]

/-- Branch equation: a one-segment pattern on a scalar is a `TypeError`. -/
theorem inheritAux_leaf_scalar (k : String) (value : Node) (pfx : String)
    (s : Prim) (h : ¬ pyEndsWithStar (pyJoin "." [k]) = true) :
    inheritAux [k] value (.scalar s) pfx =
      .error (make_type_error pfx k, .scalar s) := by
  simp [inheritAux, h]

/-- Branch equation: a leading wildcard on a dict recurses into every value
whose key is not the Shared Section key. -/
theorem inheritAux_wild_mapping (r : String) (rs : List String) (value : Node)
    (pfx : String) (l : List (String × Node))
    (h : ¬ pyEndsWithStar (pyJoin "." ("*" :: r :: rs)) = true) :
    inheritAux ("*" :: r :: rs) value (.mapping l) pfx =
      match foldVals
          (fun k' v' =>
            if k' = SHARED then Except.ok v'
            else inheritAux (r :: rs) value v' (pfx ++ "." ++ "*"))
          l with
      | .ok l' => .ok (.mapping l')
      | .error (e, l') => .error (e, .mapping l') := by
  simp [inheritAux, h]

/-- Branch equation: a leading wildcard on a non-dict is Python's
`AttributeError` on `.items()`. -/
theorem inheritAux_wild_other (r : String) (rs : List String) (value : Node)
    (pfx : String) (data : Node)
    (h : ¬ pyEndsWithStar (pyJoin "." ("*" :: r :: rs)) = true)
    (hd : ∀ l, data ≠ .mapping l) :
    inheritAux ("*" :: r :: rs) value data pfx = .error (.attrErr "items", data) := by
  cases data with
  | mapping l => exact absurd rfl (hd l)
  | seq items => simp [inheritAux, h]
  | scalar s => simp [inheritAux, h]

/-- Branch equation: a leading literal segment on a dict recurses into the
named field, raising `KeyError` if it is absent. -/
theorem inheritAux_lit_mapping (k r : String) (rs : List String) (value : Node)
    (pfx : String) (l : List (String × Node))
    (h : ¬ pyEndsWithStar (pyJoin "." (k :: r :: rs)) = true) (hk : k ≠ "*") :
    inheritAux (k :: r :: rs) value (.mapping l) pfx =
      match lookupFirst l k with
      | none => .error (.keyErr k, .mapping l)
      | some child =>
        match inheritAux (r :: rs) value child (pfx ++ "." ++ k) with
        | .ok child' => .ok (.mapping (updateFirst l k child'))
        | .error (e, child') => .error (e, .mapping (updateFirst l k child')) := by
  simp [inheritAux, h, hk]

/-- Branch equation: a leading literal segment on a list recurses into the
named field of every element. -/
theorem inheritAux_lit_seq (k r : String) (rs : List String) (value : Node)
    (pfx : String) (items : List Node)
    (h : ¬ pyEndsWithStar (pyJoin "." (k :: r :: rs)) = true) (hk : k ≠ "*") :
    inheritAux (k :: r :: rs) value (.seq items) pfx =
      match foldItems
          (fun item =>
            match item with
            | Node.mapping m =>
              match lookupFirst m k with
              | none => Except.error (Err.keyErr k, Node.mapping m)
              | some child =>
                match inheritAux (r :: rs) value child (pfx ++ "." ++ k) with
                | .ok child' => Except.ok (Node.mapping (updateFirst m k child'))
                | .error (e, child') =>
                  Except.error (e, Node.mapping (updateFirst m k child'))
            | other => Except.error (Err.typeErr "object is not subscriptable", other))
          items with
      | .ok items' => .ok (.seq items')
      | .error (e, items') => .error (e, .seq items') := by
  simp [inheritAux, h, hk]

/-- Branch equation: a leading literal segment on a scalar is a
`TypeError`. -/
theorem inheritAux_lit_scalar (k r : String) (rs : List String) (value : Node)
    (pfx : String) (s : Prim)
    (h : ¬ pyEndsWithStar (pyJoin "." (k :: r :: rs)) = true) (hk : k ≠ "*") :
    inheritAux (k :: r :: rs) value (.scalar s) pfx =
      .error (make_type_error pfx k, .scalar s) := by
  simp [inheritAux, h, hk]

/-- State form of `inheritAux_leaf_seq`. -/
theorem inheritAux_leaf_seq_state (k : String) (value : Node) (pfx : String)
    (items : List Node) (h : ¬ pyEndsWithStar (pyJoin "." [k]) = true) :
    stateOf (inheritAux [k] value (.seq items) pfx) =
      .seq (stateOf (foldItems
        (fun item =>
          match item with
          | Node.mapping m => Except.ok (Node.mapping (setdefault m k value))
          | other => Except.error (make_type_error pfx k, other))
        items)) := by
  rw [inheritAux_leaf_seq k value pfx items h]
  cases hfold : foldItems
      (fun item =>
        match item with
        | Node.mapping m => Except.ok (Node.mapping (setdefault m k value))
        | other => Except.error (make_type_error pfx k, other)) items with
  | ok items' => rfl
  | error e =>
    obtain ⟨err, items'⟩ := e
    rfl

/-- State form of `inheritAux_wild_mapping`. -/
theorem inheritAux_wild_mapping_state (r : String) (rs : List String)
    (value : Node) (pfx : String) (l : List (String × Node))
    (h : ¬ pyEndsWithStar (pyJoin "." ("*" :: r :: rs)) = true) :
    stateOf (inheritAux ("*" :: r :: rs) value (.mapping l) pfx) =
      .mapping (stateOf (foldVals
        (fun k' v' =>
          if k' = SHARED then Except.ok v'
          else inheritAux (r :: rs) value v' (pfx ++ "." ++ "*"))
        l)) := by
  rw [inheritAux_wild_mapping r rs value pfx l h]
  cases hfold : foldVals
      (fun k' v' =>
        if k' = SHARED then Except.ok v'
        else inheritAux (r :: rs) value v' (pfx ++ "." ++ "*")) l with
  | ok l' => rfl
  | error e =>
    obtain ⟨err, l'⟩ := e
    rfl

/-- State form of `inheritAux_lit_mapping` when the key is present. -/
theorem inheritAux_lit_mapping_state (k r : String) (rs : List String)
    (value : Node) (pfx : String) (l : List (String × Node)) (child : Node)
    (h : ¬ pyEndsWithStar (pyJoin "." (k :: r :: rs)) = true) (hk : k ≠ "*")
    (hlk : lookupFirst l k = some child) :
    stateOf (inheritAux (k :: r :: rs) value (.mapping l) pfx) =
      .mapping (updateFirst l k
        (stateOf (inheritAux (r :: rs) value child (pfx ++ "." ++ k)))) := by
  rw [inheritAux_lit_mapping k r rs value pfx l h hk]
  simp only [hlk]
  cases hcall : inheritAux (r :: rs) value child (pfx ++ "." ++ k) with
  | ok child' => rfl
  | error e =>
    obtain ⟨err, child'⟩ := e
    rfl

/-- State form of `inheritAux_lit_seq`. -/
theorem inheritAux_lit_seq_state (k r : String) (rs : List String)
    (value : Node) (pfx : String) (items : List Node)
    (h : ¬ pyEndsWithStar (pyJoin "." (k :: r :: rs)) = true) (hk : k ≠ "*") :
    stateOf (inheritAux (k :: r :: rs) value (.seq items) pfx) =
      .seq (stateOf (foldItems
        (fun item =>
          match item with
          | Node.mapping m =>
            match lookupFirst m k with
            | none => Except.error (Err.keyErr k, Node.mapping m)
            | some child =>
              match inheritAux (r :: rs) value child (pfx ++ "." ++ k) with
              | .ok child' => Except.ok (Node.mapping (updateFirst m k child'))
              | .error (e, child') =>
                Except.error (e, Node.mapping (updateFirst m k child'))
          | other => Except.error (Err.typeErr "object is not subscriptable", other))
        items)) := by
  rw [inheritAux_lit_seq k r rs value pfx items h hk]
  cases hfold : foldItems
      (fun item =>
        match item with
        | Node.mapping m =>
          match lookupFirst m k with
          | none => Except.error (Err.keyErr k, Node.mapping m)
          | some child =>
            match inheritAux (r :: rs) value child (pfx ++ "." ++ k) with
            | .ok child' => Except.ok (Node.mapping (updateFirst m k child'))
            | .error (e, child') =>
              Except.error (e, Node.mapping (updateFirst m k child'))
        | other => Except.error (Err.typeErr "object is not subscriptable", other))
      items with
  | ok items' => rfl
  | error e =>
    obtain ⟨err, items'⟩ := e
    rfl

end BranchEquations

/-- Core idempotence: a successful `inheritAux` run is a fixed point of a
second run with the same pattern and value. -/
theorem inheritAux_idem :
    ∀ (parts : List String) (value data data' : Node) (pfx : String),
      inheritAux parts value data pfx = .ok data' →
      inheritAux parts value data' pfx = .ok data' := by
  intro parts
  induction parts with
  | nil =>
    intro value data data' pfx h
    have hc : pyEndsWithStar (pyJoin "." ([] : List String)) = false := rfl
    have hnil : ∀ d : Node, inheritAux ([] : List String) value d pfx = .ok d := by
      intro d
      simp [inheritAux, hc]
    rw [hnil data] at h
    cases h
    exact hnil data
  | cons k rest ih =>
    intro value data data' pfx h
    by_cases hstar : pyEndsWithStar (pyJoin "." (k :: rest))
    · rw [inheritAux_star _ value data pfx hstar] at h
      cases h
    · cases rest with
      | nil =>
        cases data with
        | mapping l =>
          rw [inheritAux_leaf_mapping k value pfx l hstar] at h
          cases h
          rw [inheritAux_leaf_mapping k value pfx _ hstar, setdefault_idem]
        | seq items =>
          rw [inheritAux_leaf_seq k value pfx items hstar] at h
          split at h
          next items' hfold =>
            cases h
            have hpt := foldItems_ok_forall₂ _ items items' hfold
            have hfix : ∀ y ∈ items',
                (fun item =>
                  match item with
                  | Node.mapping m => Except.ok (Node.mapping (setdefault m k value))
                  | other => Except.error (make_type_error pfx k, other)) y =
                  .ok y := by
              intro y hy
              obtain ⟨x, _, hxy⟩ := mem_right_of_forall₂ hpt y hy
              cases x with
              | mapping m =>
                simp only at hxy
                cases hxy
                simp [setdefault_idem]
              | seq xs => simp at hxy
              | scalar s => simp at hxy
            rw [inheritAux_leaf_seq k value pfx items' hstar,
              foldItems_ok_of_forall _ items' hfix]
          next e items' hfold => cases h
        | scalar s =>
          rw [inheritAux_leaf_scalar k value pfx s hstar] at h
          cases h
      | cons r rs =>
        by_cases hk : k = "*"
        · subst hk
          cases data with
          | mapping l =>
            rw [inheritAux_wild_mapping r rs value pfx l hstar] at h
            split at h
            next l' hfold =>
              cases h
              have hpt := foldVals_ok_forall₂ _ l l' hfold
              have hfix : ∀ p ∈ l',
                  (fun k' v' =>
                    if k' = SHARED then Except.ok v'
                    else inheritAux (r :: rs) value v' (pfx ++ "." ++ "*"))
                    p.1 p.2 = .ok p.2 := by
                intro p hp
                obtain ⟨q, _, hq1, hq2⟩ := mem_right_of_forall₂ hpt p hp
                by_cases hks : p.1 = SHARED
                · simp [hks]
                · simp only [hq1] at hq2
                  simp only [if_neg hks] at hq2 ⊢
                  exact ih value q.2 p.2 (pfx ++ "." ++ "*") hq2
              rw [inheritAux_wild_mapping r rs value pfx l' hstar,
                foldVals_ok_of_forall _ l' hfix]
            next e l' hfold => cases h
          | seq items =>
            rw [inheritAux_wild_other r rs value pfx (.seq items) hstar
              (by intro m hm; cases hm)] at h
            cases h
          | scalar s =>
            rw [inheritAux_wild_other r rs value pfx (.scalar s) hstar
              (by intro m hm; cases hm)] at h
            cases h
        · cases data with
          | mapping l =>
            rw [inheritAux_lit_mapping k r rs value pfx l hstar hk] at h
            split at h
            next hlk => cases h
            next child hlk =>
              have hsome : (lookupFirst l k).isSome := by simp [hlk]
              split at h
              next child' hcall =>
                cases h
                rw [inheritAux_lit_mapping k r rs value pfx _ hstar hk]
                simp only [lookupFirst_updateFirst_self l k child' hsome,
                  ih value child child' (pfx ++ "." ++ k) hcall,
                  updateFirst_idem]
              next e child' hcall => cases h
          | seq items =>
            rw [inheritAux_lit_seq k r rs value pfx items hstar hk] at h
            split at h
            next items' hfold =>
              cases h
              have hpt := foldItems_ok_forall₂ _ items items' hfold
              have hfix : ∀ y ∈ items',
                  (fun item =>
                    match item with
                    | Node.mapping m =>
                      match lookupFirst m k with
                      | none => Except.error (Err.keyErr k, Node.mapping m)
                      | some child =>
                        match inheritAux (r :: rs) value child (pfx ++ "." ++ k) with
                        | .ok child' => Except.ok (Node.mapping (updateFirst m k child'))
                        | .error (e, child') =>
                          Except.error (e, Node.mapping (updateFirst m k child'))
                    | other =>
                      Except.error (Err.typeErr "object is not subscriptable", other))
                    y = .ok y := by
                intro y hy
                obtain ⟨x, _, hxy⟩ := mem_right_of_forall₂ hpt y hy
                cases x with
                | mapping m =>
                  simp only at hxy
                  cases hlk : lookupFirst m k with
                  | none =>
                    simp only [hlk] at hxy
                    cases hxy
                  | some child =>
                    simp only [hlk] at hxy
                    have hsome : (lookupFirst m k).isSome := by simp [hlk]
                    cases hcall : inheritAux (r :: rs) value child (pfx ++ "." ++ k) with
                    | ok child' =>
                      simp only [hcall] at hxy
                      cases hxy
                      simp only [lookupFirst_updateFirst_self m k child' hsome,
                        ih value child child' (pfx ++ "." ++ k) hcall,
                        updateFirst_idem]
                    | error e =>
                      obtain ⟨err, child'⟩ := e
                      simp only [hcall] at hxy
                      cases hxy
                | seq xs => simp at hxy
                | scalar s => simp at hxy
              rw [inheritAux_lit_seq k r rs value pfx items' hstar hk,
                foldItems_ok_of_forall _ items' hfix]
            next e items' hfold => cases h
          | scalar s =>
            rw [inheritAux_lit_scalar k r rs value pfx s hstar hk] at h
            cases h

/-- C6: Idempotence of `setDefault`.  When `inherit_value(path, value, T)`
succeeds with result `T'`, running the same `(path, value)` again on `T'`
succeeds and changes nothing. -/
theorem claim_C6_idempotent (path : String) (value T T' : Node)
    (h : inherit_value path value T = .ok T') :
    inherit_value path value T' = .ok T' := by
  unfold inherit_value at h ⊢
  exact inheritAux_idem (pySplitDot path) value T T' "" h

/-- Witness for C6 at a concrete input: applying `*.k := 1` to
`{"a": {}}` gives `{"a": {"k": 1}}`, and a second application fixes it. -/
theorem claim_C6_idempotent_witness :
    inherit_value "*.k" (Node.scalar (Prim.int 1))
      (Node.mapping [("a", Node.mapping [("k", Node.scalar (Prim.int 1))])]) =
    .ok (Node.mapping [("a", Node.mapping [("k", Node.scalar (Prim.int 1))])]) :=
  claim_C6_idempotent "*.k" (Node.scalar (Prim.int 1))
    (Node.mapping [("a", Node.mapping [])])
    (Node.mapping [("a", Node.mapping [("k", Node.scalar (Prim.int 1))])]) rfl

/-- When the last segment of a split path is the wildcard token, the
re-joined path ends in the `*` character. -/
theorem pyEndsWithStar_of_getLast :
    ∀ (l : List String), l.getLast? = some "*" →
      pyEndsWithStar (pyJoin "." l) = true := by
  intro l
  induction l with
  | nil => intro h; cases h
  | cons x xs ih =>
    intro h
    cases xs with
    | nil =>
      have hx : x = "*" := by simpa using h
      subst hx
      decide
    | cons y t =>
      rw [List.getLast?_cons_cons] at h
      have hprev := ih h
      have hlast : (pyJoin "." (y :: t)).data.getLast? = some '*' := by
        have := hprev
        unfold pyEndsWithStar at this
        simpa using this
      have hne : (pyJoin "." (y :: t)).data ≠ [] := by
        intro hnil
        rw [hnil] at hlast
        cases hlast
      unfold pyEndsWithStar
      have hdata : (pyJoin "." (x :: y :: t)).data =
          (x ++ ".").data ++ (pyJoin "." (y :: t)).data := by
        show (x ++ "." ++ pyJoin "." (y :: t)).data = _
        rw [String.data_append]
      rw [hdata, List.getLast?_append_of_ne_nil _ hne, hlast]
      rfl

/-- C7: Structural error on trailing wildcard.  For every pattern whose
last segment is the wildcard token, and every value and target, the call
fails with the `ValueError` and the error state is the untouched target:
the check runs before any mutation. -/
theorem claim_C7_trailing_wildcard (path : String) (value data : Node)
    (h : (pySplitDot path).getLast? = some "*") :
    inherit_value path value data =
      .error (.valueErr "json path cannot ends with *!", data) := by
  unfold inherit_value
  exact inheritAux_star (pySplitDot path) value data ""
    (pyEndsWithStar_of_getLast (pySplitDot path) h)

/-- Witness for C7 at a concrete input. -/
theorem claim_C7_trailing_wildcard_witness :
    inherit_value "a.*" (Node.scalar (Prim.int 1))
      (Node.mapping [("a", Node.mapping [])]) =
    .error (.valueErr "json path cannot ends with *!",
      Node.mapping [("a", Node.mapping [])]) :=
  claim_C7_trailing_wildcard "a.*" (Node.scalar (Prim.int 1))
    (Node.mapping [("a", Node.mapping [])]) (by decide)

/-- C9: Vacuous application is a silent no-op.  A wildcard segment
expanded over an empty dict, and a one-segment pattern applied to an empty
list, both succeed and leave the data unchanged. -/
theorem claim_C9_vacuous_noop :
    (∀ (r : String) (rs : List String) (value : Node) (pfx : String),
      ¬ pyEndsWithStar (pyJoin "." ("*" :: r :: rs)) = true →
      inheritAux ("*" :: r :: rs) value (.mapping []) pfx = .ok (.mapping [])) ∧
    (∀ (k : String) (value : Node) (pfx : String),
      ¬ pyEndsWithStar (pyJoin "." [k]) = true →
      inheritAux [k] value (.seq []) pfx = .ok (.seq [])) := by
  constructor
  · intro r rs value pfx h
    rw [inheritAux_wild_mapping r rs value pfx [] h]
    simp [foldVals]
  · intro k value pfx h
    rw [inheritAux_leaf_seq k value pfx [] h]
    simp [foldItems]

/-- Witness for C9 at concrete inputs (the empty dict with `*.key`, the
empty list with `key`). -/
theorem claim_C9_vacuous_noop_witness :
    inheritAux ["*", "key"] (Node.scalar (Prim.int 1)) (.mapping []) "" =
      .ok (.mapping []) ∧
    inheritAux ["key"] (Node.scalar (Prim.int 1)) (.seq []) "" =
      .ok (.seq []) :=
  ⟨claim_C9_vacuous_noop.1 "key" [] (Node.scalar (Prim.int 1)) "" (by decide),
   claim_C9_vacuous_noop.2 "key" (Node.scalar (Prim.int 1)) "" (by decide)⟩

/-- `foldItems` over a list whose prefix succeeds and whose next element
fails: the failure state keeps the processed prefix and the untouched
remainder. -/
theorem foldItems_error_at (f : Node → Except (Err × Node) Node)
    (g : Node → Node) (e : Err) (x x' : Node) (post : List Node)
    (hx : f x = .error (e, x')) :
    ∀ (pre : List Node), (∀ n ∈ pre, f n = .ok (g n)) →
      foldItems f (pre ++ x :: post) = .error (e, pre.map g ++ x' :: post) := by
  intro pre
  induction pre with
  | nil =>
    intro _
    simp [foldItems, hx]
  | cons n ns ih =>
    intro h
    have hn := h n (by simp)
    have hns := ih (fun m hm => h m (by simp [hm]))
    simp [foldItems, hn, hns]

/-- The per-element action of a one-segment pattern on a list element that
is a dict: `setdefault`; on anything else the element is untouched. -/
def leafSet (k : String) (value : Node) : Node → Node
  | .mapping m => .mapping (setdefault m k value)
  | other => other

/-- C10: Non-atomic failure on mixed lists.  Applying a one-segment
pattern to a list that holds dicts up to position `i` and a non-dict at
position `i` raises the `TypeError` only after the default has been set on
the dicts before position `i`: the failure state is the partially mutated
list, not the original. -/
theorem claim_C10_partial_mutation (k : String) (value : Node) (pfx : String)
    (pre : List Node) (x : Node) (post : List Node)
    (hstar : ¬ pyEndsWithStar (pyJoin "." [k]) = true)
    (hpre : ∀ n ∈ pre, ∃ m, n = Node.mapping m)
    (hx : ∀ m, x ≠ Node.mapping m) :
    inheritAux [k] value (.seq (pre ++ x :: post)) pfx =
      .error (make_type_error pfx k,
        .seq (pre.map (leafSet k value) ++ x :: post)) := by
  rw [inheritAux_leaf_seq k value pfx (pre ++ x :: post) hstar]
  have hfx : (fun item =>
      match item with
      | Node.mapping m => Except.ok (Node.mapping (setdefault m k value))
      | other => Except.error (make_type_error pfx k, other)) x =
      .error (make_type_error pfx k, x) := by
    cases x with
    | mapping m => exact absurd rfl (hx m)
    | seq xs => rfl
    | scalar s => rfl
  have hok : ∀ n ∈ pre, (fun item =>
      match item with
      | Node.mapping m => Except.ok (Node.mapping (setdefault m k value))
      | other => Except.error (make_type_error pfx k, other)) n =
      .ok (leafSet k value n) := by
    intro n hn
    obtain ⟨m, rfl⟩ := hpre n hn
    rfl
  rw [foldItems_error_at _ (leafSet k value) (make_type_error pfx k) x x post
    hfx pre hok]

/-- Witness for C10 at a concrete input: the list `[{"a": 2}, None]` with
pattern `k`; the error state shows `k` already set on element 0. -/
theorem claim_C10_partial_mutation_witness :
    inheritAux ["k"] (Node.scalar (Prim.int 1))
      (.seq [Node.mapping [("a", Node.scalar (Prim.int 2))], Node.scalar Prim.null])
      "" =
    .error (make_type_error "" "k",
      .seq [Node.mapping [("a", Node.scalar (Prim.int 2)),
                          ("k", Node.scalar (Prim.int 1))],
            Node.scalar Prim.null]) := by
  have h := claim_C10_partial_mutation "k" (Node.scalar (Prim.int 1)) ""
    [Node.mapping [("a", Node.scalar (Prim.int 2))]] (Node.scalar Prim.null) []
    (by decide)
    (by
      intro n hn
      simp at hn
      exact ⟨[("a", Node.scalar (Prim.int 2))], hn⟩)
    (fun m hm => Node.noConfusion hm)
  simpa [leafSet, setdefault, lookupFirst] using h

/-- Is this exception a Python `TypeError`? -/
def isTypeErrB : Err → Bool
  | .typeErr _ => true
  | _ => false

/-- Counterexample to C8 as stated: expanding the wildcard over a node
that is not a dict (here an empty list) raises `AttributeError` (on
`.items()`), which is not a `TypeError` — a fourth error kind outside the
claimed three-kind taxonomy. -/
theorem claim_C8_counterexample :
    inherit_value "*.k" (Node.scalar (Prim.int 1)) (Node.seq []) =
      .error (.attrErr "items", Node.seq []) ∧
    isTypeErrB (.attrErr "items") = false :=
  ⟨rfl, rfl⟩

/-- C8 as amended: whenever a wildcard segment (with more pattern left) is
expanded over a node that is not a dict, and the trailing-wildcard check
does not fire first, the failure is Python's `AttributeError` on
`.items()` — so the error taxonomy of the Inheritance Engine has four
kinds (ValueError, TypeError, KeyError, AttributeError), not three. -/
theorem claim_C8_amended_attr_error (r : String) (rs : List String)
    (value data : Node) (pfx : String)
    (hstar : ¬ pyEndsWithStar (pyJoin "." ("*" :: r :: rs)) = true)
    (hd : ∀ l, data ≠ Node.mapping l) :
    inheritAux ("*" :: r :: rs) value data pfx =
      .error (.attrErr "items", data) :=
  inheritAux_wild_other r rs value pfx data hstar hd

/-- Witness for the amended C8 at a concrete input. -/
theorem claim_C8_amended_attr_error_witness :
    inheritAux ["*", "k"] (Node.scalar (Prim.int 1)) (Node.seq []) "" =
      .error (.attrErr "items", Node.seq []) :=
  claim_C8_amended_attr_error "k" [] (Node.scalar (Prim.int 1)) (Node.seq []) ""
    (by decide) (fun l hl => Node.noConfusion hl)

/-- A scalar field at any concrete location survives a `setdefault` on its
dict. -/
theorem getAt_scalar_setdefault (l : List (String × Node)) (k : String)
    (value : Node) (c : List Step) (s : Prim)
    (h : getAt (.mapping l) c = some (.scalar s)) :
    getAt (.mapping (setdefault l k value)) c = some (.scalar s) := by
  cases c with
  | nil => simp [getAt] at h
  | cons st c' =>
    cases st with
    | key j =>
      cases hlj : lookupFirst l j with
      | none => simp [getAt, hlj] at h
      | some w =>
        simp only [getAt, hlj] at h
        simp [getAt, lookupFirst_setdefault_of_some l k j value w hlj, h]
    | idx i => simp [getAt] at h

/-- A scalar field at any concrete location survives rebinding the key `k`
to a node that preserves the scalar fields of the old value. -/
theorem getAt_scalar_updateFirst (l : List (String × Node)) (k : String)
    (child X : Node) (hlk : lookupFirst l k = some child)
    (hrec : ∀ (c0 : List Step) (s0 : Prim),
      getAt child c0 = some (.scalar s0) → getAt X c0 = some (.scalar s0)) :
    ∀ (c0 : List Step) (s0 : Prim),
      getAt (.mapping l) c0 = some (.scalar s0) →
      getAt (.mapping (updateFirst l k X)) c0 = some (.scalar s0) := by
  intro c0 s0 h
  cases c0 with
  | nil => simp [getAt] at h
  | cons st c' =>
    cases st with
    | key j =>
      by_cases hj : j = k
      · subst hj
        simp only [getAt, hlk] at h
        have hsome : (lookupFirst l j).isSome := by simp [hlk]
        simp [getAt, lookupFirst_updateFirst_self l j X hsome, hrec c' s0 h]
      · cases hlj : lookupFirst l j with
        | none => simp [getAt, hlj] at h
        | some w =>
          simp only [getAt, hlj] at h
          simp [getAt, lookupFirst_updateFirst_ne l k j X hj, hlj, h]
    | idx i => simp [getAt] at h

/-- Frame property of `inheritAux`: a scalar field at any concrete
location of the tree — matched by the pattern or not — is never changed,
whatever the outcome.  `setdefault` only fills absent fields, so an
already-present concrete value can never be overwritten. -/
theorem inheritAux_scalar_frame :
    ∀ (parts : List String) (value data : Node) (pfx : String)
      (c : List Step) (s : Prim),
      getAt data c = some (.scalar s) →
      getAt (stateOf (inheritAux parts value data pfx)) c = some (.scalar s) := by
  intro parts
  induction parts with
  | nil =>
    intro value data pfx c s h
    have hc : pyEndsWithStar (pyJoin "." ([] : List String)) = false := rfl
    have hnil : inheritAux ([] : List String) value data pfx = .ok data := by
      simp [inheritAux, hc]
    rw [hnil]
    exact h
  | cons k rest ih =>
    intro value data pfx c s h
    by_cases hstar : pyEndsWithStar (pyJoin "." (k :: rest))
    · rw [inheritAux_star _ value data pfx hstar]
      exact h
    · cases rest with
      | nil =>
        cases data with
        | scalar s0 =>
          rw [inheritAux_leaf_scalar k value pfx s0 hstar]
          exact h
        | mapping l =>
          rw [inheritAux_leaf_mapping k value pfx l hstar]
          simp only [stateOf]
          exact getAt_scalar_setdefault l k value c s h
        | seq items =>
          rw [inheritAux_leaf_seq_state k value pfx items hstar]
          cases c with
          | nil => simp [getAt] at h
          | cons st c' =>
            cases st with
            | key j => simp [getAt] at h
            | idx i =>
              obtain ⟨item, hitem, hin⟩ :
                  ∃ item, items[i]? = some item ∧
                    getAt item c' = some (.scalar s) := by
                cases hit : items[i]? with
                | some item => exact ⟨item, rfl, by simpa [getAt, hit] using h⟩
                | none => simp [getAt, hit] at h
              obtain ⟨item', hitem', hR⟩ := foldItems_get_rel
                (fun a b => ∀ (c0 : List Step) (s0 : Prim),
                  getAt a c0 = some (.scalar s0) → getAt b c0 = some (.scalar s0))
                (fun item =>
                  match item with
                  | Node.mapping m => Except.ok (Node.mapping (setdefault m k value))
                  | other => Except.error (make_type_error pfx k, other))
                (by
                  intro x c0 s0 h0
                  cases x with
                  | mapping m =>
                    simp only [stateOf]
                    exact getAt_scalar_setdefault m k value c0 s0 h0
                  | seq xs => exact h0
                  | scalar sc => exact h0)
                (fun x c0 s0 h0 => h0)
                items i item hitem
              simp [getAt, hitem', hR c' s hin]
      | cons r rs =>
        by_cases hk : k = "*"
        · subst hk
          cases data with
          | mapping l =>
            rw [inheritAux_wild_mapping_state r rs value pfx l hstar]
            cases c with
            | nil => simp [getAt] at h
            | cons st c' =>
              cases st with
              | idx i => simp [getAt] at h
              | key j =>
                obtain ⟨w, hw, hin⟩ :
                    ∃ w, lookupFirst l j = some w ∧
                      getAt w c' = some (.scalar s) := by
                  cases hlj : lookupFirst l j with
                  | some w => exact ⟨w, rfl, by simpa [getAt, hlj] using h⟩
                  | none => simp [getAt, hlj] at h
                obtain ⟨w', hw', hR⟩ := foldVals_lookup_rel
                  (fun a b => ∀ (c0 : List Step) (s0 : Prim),
                    getAt a c0 = some (.scalar s0) → getAt b c0 = some (.scalar s0))
                  (fun k' v' =>
                    if k' = SHARED then Except.ok v'
                    else inheritAux (r :: rs) value v' (pfx ++ "." ++ "*"))
                  (by
                    intro k' v' c0 s0 h0
                    by_cases hks : k' = SHARED
                    · simpa [hks, stateOf] using h0
                    · simp only [if_neg hks]
                      exact ih value v' (pfx ++ "." ++ "*") c0 s0 h0)
                  (fun v' c0 s0 h0 => h0)
                  l j w hw
                simp [getAt, hw', hR c' s hin]
          | seq items =>
            rw [inheritAux_wild_other r rs value pfx (.seq items) hstar
              (by intro m hm; cases hm)]
            exact h
          | scalar s0 =>
            rw [inheritAux_wild_other r rs value pfx (.scalar s0) hstar
              (by intro m hm; cases hm)]
            exact h
        · cases data with
          | mapping l =>
            cases hlk : lookupFirst l k with
            | none =>
              rw [inheritAux_lit_mapping k r rs value pfx l hstar hk, hlk]
              exact h
            | some child =>
              rw [inheritAux_lit_mapping_state k r rs value pfx l child hstar hk hlk]
              exact getAt_scalar_updateFirst l k child _ hlk
                (fun c0 s0 h0 => ih value child (pfx ++ "." ++ k) c0 s0 h0) c s h
          | seq items =>
            rw [inheritAux_lit_seq_state k r rs value pfx items hstar hk]
            cases c with
            | nil => simp [getAt] at h
            | cons st c' =>
              cases st with
              | key j => simp [getAt] at h
              | idx i =>
                obtain ⟨item, hitem, hin⟩ :
                    ∃ item, items[i]? = some item ∧
                      getAt item c' = some (.scalar s) := by
                  cases hit : items[i]? with
                  | some item => exact ⟨item, rfl, by simpa [getAt, hit] using h⟩
                  | none => simp [getAt, hit] at h
                obtain ⟨item', hitem', hR⟩ := foldItems_get_rel
                  (fun a b => ∀ (c0 : List Step) (s0 : Prim),
                    getAt a c0 = some (.scalar s0) → getAt b c0 = some (.scalar s0))
                  (fun item =>
                    match item with
                    | Node.mapping m =>
                      match lookupFirst m k with
                      | none => Except.error (Err.keyErr k, Node.mapping m)
                      | some child =>
                        match inheritAux (r :: rs) value child (pfx ++ "." ++ k) with
                        | .ok child' =>
                          Except.ok (Node.mapping (updateFirst m k child'))
                        | .error (e, child') =>
                          Except.error (e, Node.mapping (updateFirst m k child'))
                    | other =>
                      Except.error (Err.typeErr "object is not subscriptable", other))
                  (by
                    intro x c0 s0 h0
                    cases x with
                    | mapping m =>
                      cases hmk : lookupFirst m k with
                      | none => simpa [stateOf, hmk] using h0
                      | some child =>
                        have hpres := getAt_scalar_updateFirst m k child
                          (stateOf (inheritAux (r :: rs) value child (pfx ++ "." ++ k)))
                          hmk
                          (fun c1 s1 h1 => ih value child (pfx ++ "." ++ k) c1 s1 h1)
                          c0 s0 h0
                        cases hcall : inheritAux (r :: rs) value child
                            (pfx ++ "." ++ k) with
                        | ok child' =>
                          rw [hcall] at hpres
                          simp only [stateOf] at hpres
                          simp only [hmk, hcall, stateOf]
                          exact hpres
                        | error e =>
                          obtain ⟨err, child'⟩ := e
                          rw [hcall] at hpres
                          simp only [stateOf] at hpres
                          simp only [hmk, hcall, stateOf]
                          exact hpres
                    | seq xs => exact h0
                    | scalar sc => exact h0)
                  (fun x c0 s0 h0 => h0)
                  items i item hitem
                simp [getAt, hitem', hR c' s hin]
          | scalar s0 =>
            rw [inheritAux_lit_scalar k r rs value pfx s0 hstar hk]
            exact h

/-- Frame property at the `inherit_value` level. -/
theorem inherit_value_scalar_frame (path : String) (value data : Node)
    (c : List Step) (s : Prim) (h : getAt data c = some (.scalar s)) :
    getAt (stateOf (inherit_value path value data)) c = some (.scalar s) := by
  unfold inherit_value
  exact inheritAux_scalar_frame (pySplitDot path) value data "" c s h

/-- Frame property of a whole Shared Section expansion: `applyShared`
never changes an already-present scalar field, wherever it sits. -/
theorem applyShared_scalar_frame :
    ∀ (sd : List (String × Node)) (data : Node) (c : List Step) (s : Prim),
      getAt data c = some (.scalar s) →
      getAt (stateOf (applyShared sd data)) c = some (.scalar s) := by
  intro sd
  induction sd with
  | nil =>
    intro data c s h
    simpa [applyShared, stateOf] using h
  | cons q rest ih =>
    obtain ⟨p, v⟩ := q
    intro data c s h
    have hframe := inherit_value_scalar_frame p v data c s h
    cases hcall : inherit_value p v data with
    | ok d' =>
      rw [hcall] at hframe
      simp only [stateOf] at hframe
      simp only [applyShared, hcall]
      exact ih d' c s hframe
    | error e =>
      obtain ⟨err, d'⟩ := e
      rw [hcall] at hframe
      simp only [stateOf] at hframe
      simp only [applyShared, hcall, stateOf]
      exact hframe

/-- C2: Child-over-parent default precedence.  First conjunct, the general
mechanism: `apply_inheritance` resolves deeper Shared Sections (in its
recursion step) before expanding this node's own section, and that later
expansion (`applyShared`) can never change an already-present scalar
field — so a default a descendant section has already planted always beats
a same-target ancestor default applied afterwards.  Remaining conjuncts,
the concrete run of the spec: resolving
`{"_shared": {"*.servers.*.cpu": 1},
  "dev": {"servers": {"_shared": {"*.cpu": 2}, "blue": {}}}}`
succeeds and `dev.servers.blue.cpu` ends up `2` (the deeper default), not
`1`. -/
theorem claim_C2_child_over_parent :
    (∀ (sd : List (String × Node)) (data : Node) (c : List Step) (s : Prim),
      getAt data c = some (.scalar s) →
      getAt (stateOf (applyShared sd data)) c = some (.scalar s)) ∧
    applyInheritance
      (.mapping
        [(SHARED, .mapping [("*.servers.*.cpu", .scalar (.int 1))]),
         ("dev", .mapping
           [("servers", .mapping
             [(SHARED, .mapping [("*.cpu", .scalar (.int 2))]),
              ("blue", .mapping [])])])]) =
      .ok (.mapping
        [("dev", .mapping
          [("servers", .mapping
            [("blue", .mapping [("cpu", .scalar (.int 2))])])])]) ∧
    getAt (.mapping
        [("dev", .mapping
          [("servers", .mapping
            [("blue", .mapping [("cpu", .scalar (.int 2))])])])])
      [Step.key "dev", Step.key "servers", Step.key "blue", Step.key "cpu"] =
      some (.scalar (.int 2)) ∧
    Node.scalar (Prim.int 2) ≠ Node.scalar (Prim.int 1) := by
  refine ⟨applyShared_scalar_frame, ?_, rfl, ?_⟩
  · simp [applyInheritance, step1Entries, step1Items, applyShared, inherit_value,
      inheritAux, SHARED, lookupFirst, removeFirst, setdefault, updateFirst,
      foldVals, foldItems, pySplitDot, splitDotAux, pyJoin, pyEndsWithStar]
  · intro h
    injection h with h'
    exact absurd h' (by decide)

/-- Witness for C2's general conjunct at a concrete input: the deeper
default `cpu = 2` planted under `blue` survives the ancestor's whole
Shared Section expansion `*.cpu := 1`. -/
theorem claim_C2_child_over_parent_witness :
    getAt (stateOf (applyShared [("*.cpu", Node.scalar (Prim.int 1))]
        (Node.mapping [("blue", Node.mapping [("cpu", Node.scalar (Prim.int 2))])])))
      [Step.key "blue", Step.key "cpu"] = some (Node.scalar (Prim.int 2)) :=
  claim_C2_child_over_parent.1 [("*.cpu", Node.scalar (Prim.int 1))]
    (Node.mapping [("blue", Node.mapping [("cpu", Node.scalar (Prim.int 2))])])
    [Step.key "blue", Step.key "cpu"] (Prim.int 2) rfl

/-- A `foldVals` whose action fixes every value bound to the key `j`
leaves the binding of `j` unchanged, whatever the outcome. -/
theorem foldVals_lookup_fixed (f : String → Node → Except (Err × Node) Node)
    (j : String) (hj : ∀ v, f j v = .ok v) :
    ∀ l, lookupFirst (stateOf (foldVals f l)) j = lookupFirst l j := by
  intro l
  induction l with
  | nil => simp [foldVals, stateOf]
  | cons p rest ih =>
    obtain ⟨k, v⟩ := p
    by_cases hk : k = j
    · subst hk
      simp only [foldVals, hj v]
      cases hrest : foldVals f rest with
      | ok rest' => simp [stateOf, lookupFirst]
      | error e =>
        obtain ⟨err, rest'⟩ := e
        simp [stateOf, lookupFirst]
    · cases hfv : f k v with
      | error e =>
        obtain ⟨err, v'⟩ := e
        simp [foldVals, hfv, stateOf, lookupFirst, hk]
      | ok v' =>
        cases hrest : foldVals f rest with
        | ok rest' =>
          have := ih
          rw [hrest] at this
          simp only [stateOf] at this
          simp [foldVals, hfv, hrest, stateOf, lookupFirst, hk, this]
        | error e =>
          obtain ⟨err, rest'⟩ := e
          have := ih
          rw [hrest] at this
          simp only [stateOf] at this
          simp [foldVals, hfv, hrest, stateOf, lookupFirst, hk, this]

/-- Dict read at the `Node` level: `lookupFirst` when the node is a dict,
a miss otherwise. -/
def mappingLookup : Node → String → Option Node
  | .mapping l, k => lookupFirst l k
  | _, _ => none

/-- C5: Wildcard skip of the reserved key.  First conjunct: whenever a
wildcard segment is expanded over a dict, the binding of the reserved
Shared Section key is left exactly as it was (the loop recurses into every
other value only), whatever the outcome.  Second conjunct: the concrete
run of the spec — `resolveInheritance({"_shared": {"*.k": "v"}, "a": {}})`
yields `{"a": {"k": "v"}}`, the Shared Section never receiving its own
default. -/
theorem claim_C5_wildcard_skips_reserved :
    (∀ (r : String) (rs : List String) (value : Node) (pfx : String)
       (l : List (String × Node)),
       mappingLookup
         (stateOf (inheritAux ("*" :: r :: rs) value (.mapping l) pfx)) SHARED =
         lookupFirst l SHARED) ∧
    applyInheritance
      (.mapping [(SHARED, .mapping [("*.k", .scalar (.str "v"))]),
                 ("a", .mapping [])]) =
      .ok (.mapping [("a", .mapping [("k", .scalar (.str "v"))])]) := by
  constructor
  · intro r rs value pfx l
    by_cases hstar : pyEndsWithStar (pyJoin "." ("*" :: r :: rs))
    · rw [inheritAux_star _ value (.mapping l) pfx hstar]
      simp [stateOf, mappingLookup]
    · rw [inheritAux_wild_mapping_state r rs value pfx l hstar]
      simp only [mappingLookup]
      exact foldVals_lookup_fixed
        (fun k' v' =>
          if k' = SHARED then Except.ok v'
          else inheritAux (r :: rs) value v' (pfx ++ "." ++ "*"))
        SHARED (by intro v; simp) l
  · simp [applyInheritance, step1Entries, step1Items, applyShared, inherit_value,
      inheritAux, SHARED, lookupFirst, removeFirst, setdefault, updateFirst,
      foldVals, foldItems, pySplitDot, splitDotAux, pyJoin, pyEndsWithStar]

/-- A present entry makes `lookupFirst` succeed on its key. -/
theorem lookupFirst_isSome_of_mem (l : List (String × Node)) (p : String × Node)
    (h : p ∈ l) : (lookupFirst l p.1).isSome := by
  induction l with
  | nil => cases h
  | cons q rest ih =>
    obtain ⟨k, v⟩ := q
    rcases List.mem_cons.mp h with rfl | h'
    · simp [lookupFirst]
    · by_cases hk : k = p.1 <;> simp [lookupFirst, hk, ih h']

mutual

/-- Modelled from the spec: the Merge Engine (`deep_merge` of
`configcraft/merge.py`, whose source is not under `src/`; only its tests
are).  Following spec section 4.1: two dicts merge key-by-key (keys on one
side only are copied; keys on both sides merge recursively under
`path + "." + key`); two lists must have equal lengths (else a
length-mismatch `ValueError` carrying the path), empty lists merge to an
empty list, and otherwise all paired elements must be dicts (else a
"not dict" `TypeError`) and merge pairwise by position; every other
combination — including two equal scalars — is a type-mismatch
`TypeError` carrying the path. -/
def mergeAt : Node → Node → String → Except Err Node
  | .mapping a, .mapping b, path =>
    match mergeLeft a b path with
    | .ok merged =>
      .ok (.mapping (merged ++ b.filter (fun q => (lookupFirst a q.1).isNone)))
    | .error e => .error e
  | .seq xs, .seq ys, path =>
    if xs.length = ys.length then
      match mergeItems xs ys path with
      | .ok zs => .ok (.seq zs)
      | .error e => .error e
    else .error (.valueErr ("list length mismatch: path = '" ++ path ++ "'"))
  | _, _, path =>
    .error (.typeErr ("type of value at '" ++ path ++
      "' in data1 and data2 does not match!"))
termination_by a _ _ => sizeOf a

/-- The left-to-right pass over the first dict's entries: copy keys the
second dict lacks, merge recursively where both sides bind the key. -/
def mergeLeft :
    List (String × Node) → List (String × Node) → String →
      Except Err (List (String × Node))
  | [], _, _ => .ok []
  | (k, v) :: rest, b, path =>
    match lookupFirst b k with
    | none =>
      match mergeLeft rest b path with
      | .ok rest' => .ok ((k, v) :: rest')
      | .error e => .error e
    | some w =>
      match mergeAt v w (path ++ "." ++ k) with
      | .ok m =>
        match mergeLeft rest b path with
        | .ok rest' => .ok ((k, m) :: rest')
        | .error e => .error e
      | .error e => .error e
termination_by a _ _ => sizeOf a

/-- Pairwise merging of two equal-length lists: every paired element must
be a dict. -/
def mergeItems : List Node → List Node → String → Except Err (List Node)
  | [], _, _ => .ok []
  | x :: xs, [], _ => .ok (x :: xs)
  | x :: xs, y :: ys, path =>
    match x, y with
    | .mapping ma, .mapping mb =>
      match mergeAt (.mapping ma) (.mapping mb) path with
      | .ok z =>
        match mergeItems xs ys path with
        | .ok zs => .ok (z :: zs)
        | .error e => .error e
      | .error e => .error e
    | _, _ => .error (.typeErr ("items in '" ++ path ++ "' are not dict"))
termination_by a _ _ => sizeOf a

end

/-- Modelled from the spec: `deep_merge(data1, data2)` merges from the
root, whose path is the empty prefix (so a first-level key `k` reports
path `.k`). -/
def deep_merge (data1 data2 : Node) : Except Err Node :=
  mergeAt data1 data2 ""

/-- The first binding found by `lookupFirst` is an entry of the list. -/
theorem mem_of_lookupFirst_eq_some :
    ∀ (l : List (String × Node)) (k : String) (w : Node),
      lookupFirst l k = some w → (k, w) ∈ l := by
  intro l
  induction l with
  | nil => intro k w h; cases h
  | cons r rest ih =>
    obtain ⟨k', v'⟩ := r
    intro k w h
    by_cases hk : k' = k
    · subst hk
      simp [lookupFirst] at h
      simp [h]
    · simp only [lookupFirst, if_neg hk] at h
      simp [ih k w h]

/-- C4: Merge totality on disjoint dicts.  When no key of `a` occurs in
`b`, `deep_merge` succeeds; the result binds every key to exactly the
value it had in whichever input contained it (keys of `a` first, then keys
of `b`), so the key set is the union and no value is dropped. -/
theorem claim_C4_merge_totality (a b : List (String × Node))
    (hdisj : (a.map Prod.fst).all (fun k => (lookupFirst b k).isNone) = true) :
    ∃ c, deep_merge (.mapping a) (.mapping b) = .ok (.mapping c) ∧
      ∀ k, lookupFirst c k =
        match lookupFirst a k with
        | some v => some v
        | none => lookupFirst b k := by
  have hnone : ∀ p ∈ a, lookupFirst b p.1 = none := by
    intro p hp
    have := List.all_eq_true.mp hdisj p.1 (List.mem_map_of_mem Prod.fst hp)
    simpa [Option.isNone_iff_eq_none] using this
  have hml : mergeLeft a b "" = .ok a := by
    clear hdisj
    induction a with
    | nil => simp [mergeLeft]
    | cons p rest ih =>
      obtain ⟨k, v⟩ := p
      have hk := hnone (k, v) (by simp)
      have hrest := ih (fun q hq => hnone q (by simp [hq]))
      simp [mergeLeft, hk, hrest]
  have hfilter : b.filter (fun q => (lookupFirst a q.1).isNone) = b := by
    rw [List.filter_eq_self]
    intro q hq
    cases hla : lookupFirst a q.1 with
    | none => simp
    | some w =>
      exfalso
      have hmem : (q.1, w) ∈ a := mem_of_lookupFirst_eq_some a q.1 w hla
      have := hnone (q.1, w) hmem
      have hq' := lookupFirst_isSome_of_mem b q hq
      rw [this] at hq'
      cases hq'
  refine ⟨a ++ b, ?_, ?_⟩
  · unfold deep_merge
    simp [mergeAt, hml, hfilter]
  · intro k
    exact lookupFirst_append a b k

/-- Witness for C4 at a concrete input: `{"dev": {...}}` and
`{"prod": {...}}` have disjoint keys. -/
theorem claim_C4_merge_totality_witness :
    ∃ c, deep_merge
        (.mapping [("dev", .mapping [("username", .scalar (.str "dev.user"))])])
        (.mapping [("prod", .mapping [("username", .scalar (.str "prod.user"))])]) =
      .ok (.mapping c) ∧
      ∀ k, lookupFirst c k =
        match lookupFirst
            [("dev", Node.mapping [("username", Node.scalar (Prim.str "dev.user"))])] k with
        | some v => some v
        | none =>
          lookupFirst
            [("prod", Node.mapping [("username", Node.scalar (Prim.str "prod.user"))])] k :=
  claim_C4_merge_totality
    [("dev", .mapping [("username", .scalar (.str "dev.user"))])]
    [("prod", .mapping [("username", .scalar (.str "prod.user"))])]
    (by decide)

mutual

/-- No dict anywhere in the node binds the reserved Shared Section key. -/
def sharedFreeB : Node → Bool
  | .scalar _ => true
  | .mapping l => sharedFreeEntries l
  | .seq xs => sharedFreeItems xs
termination_by n => sizeOf n

/-- `sharedFreeB` over the entries of a dict. -/
def sharedFreeEntries : List (String × Node) → Bool
  | [] => true
  | (k, v) :: rest => !(k == SHARED) && sharedFreeB v && sharedFreeEntries rest
termination_by l => sizeOf l

/-- `sharedFreeB` over the elements of a list. -/
def sharedFreeItems : List Node → Bool
  | [] => true
  | x :: xs => sharedFreeB x && sharedFreeItems xs
termination_by l => sizeOf l

end

/-- No entry of the dict binds the reserved key. -/
def keysNoShared (l : List (String × Node)) : Bool :=
  l.all (fun q => !(q.1 == SHARED))

/-- The pattern's final segment (the field it writes) is not the reserved
key. -/
def leafNotShared (p : String) : Bool :=
  !((pySplitDot p).getLast? == some SHARED)

mutual

/-- Well-behaved input for the amended C3: every Shared Section is a dict
binding patterns whose leaf segment is not the reserved key to values free
of the reserved key, a dict has at most one Shared Section entry, and the
dicts that the traversal of `apply_inheritance` cannot reach (those nested
inside lists inside lists) are already free of the reserved key. -/
def goodEntries : List (String × Node) → Bool
  | [] => true
  | (k, v) :: rest =>
    (if k == SHARED then goodSharedVal v && keysNoShared rest else goodVal v) &&
      goodEntries rest
termination_by l => sizeOf l

/-- `goodEntries` for the value of a non-reserved key. -/
def goodVal : Node → Bool
  | .scalar _ => true
  | .mapping l => goodEntries l
  | .seq xs => goodItems xs
termination_by n => sizeOf n

/-- Elements of a list value: dict elements are traversed (so must be
good); any other element is not traversed and must already be free of the
reserved key. -/
def goodItems : List Node → Bool
  | [] => true
  | x :: xs =>
    (match x with
     | .mapping l => goodEntries l
     | other => sharedFreeB other) && goodItems xs
termination_by l => sizeOf l

/-- The value stored under the reserved key: when it is a dict (anything
else makes `apply_inheritance` fail), its entries are pattern/default
pairs. -/
def goodSharedVal : Node → Bool
  | .mapping sd => goodSharedEntries sd
  | _ => true

/-- Pattern/default pairs of a Shared Section: the pattern's leaf segment
is not the reserved key and the default value is free of it. -/
def goodSharedEntries : List (String × Node) → Bool
  | [] => true
  | (p, v) :: rest => leafNotShared p && sharedFreeB v && goodSharedEntries rest
termination_by l => sizeOf l

end

/-- `goodEntries` at the root argument of `apply_inheritance` (which must
be a dict to succeed at all). -/
def goodNode : Node → Bool
  | .mapping l => goodEntries l
  | _ => true

/-- Counterexample to C3 as stated: a Shared Section default value that
itself contains a Shared Section is copied into the tree verbatim —
`apply_inheritance` succeeds on
`{"_shared": {"a": {"_shared": {"b": 1}}}}` with result
`{"a": {"_shared": {"b": 1}}}`, which still contains a reachable Shared
Section key. -/
theorem claim_C3_counterexample :
    applyInheritance
      (.mapping [(SHARED, .mapping
        [("a", .mapping [(SHARED, .mapping [("b", .scalar (.int 1))])])])]) =
      .ok (.mapping
        [("a", .mapping [(SHARED, .mapping [("b", .scalar (.int 1))])])]) ∧
    sharedFreeB
      (.mapping
        [("a", .mapping [(SHARED, .mapping [("b", .scalar (.int 1))])])]) =
      false := by
  constructor
  · simp [applyInheritance, step1Entries, step1Items, applyShared, inherit_value,
      inheritAux, SHARED, lookupFirst, removeFirst, setdefault, updateFirst,
      foldVals, foldItems, pySplitDot, splitDotAux, pyJoin, pyEndsWithStar]
  · simp [sharedFreeB, sharedFreeEntries, sharedFreeItems, SHARED]

/-- An entry of `setdefault l k v` is an entry of `l` or the new binding. -/
theorem mem_setdefault (l : List (String × Node)) (k : String) (v : Node)
    (q : String × Node) (h : q ∈ setdefault l k v) : q ∈ l ∨ q = (k, v) := by
  unfold setdefault at h
  by_cases hs : (lookupFirst l k).isSome
  · rw [if_pos hs] at h
    exact Or.inl h
  · rw [if_neg hs] at h
    rcases List.mem_append.mp h with h' | h'
    · exact Or.inl h'
    · simp at h'
      exact Or.inr h'

/-- An entry of `updateFirst l k nv` is an entry of `l` or the rebound
entry. -/
theorem mem_updateFirst (l : List (String × Node)) (k : String) (nv : Node)
    (q : String × Node) : q ∈ updateFirst l k nv → q ∈ l ∨ q = (k, nv) := by
  induction l with
  | nil => intro h; cases h
  | cons p rest ih =>
    obtain ⟨k', v'⟩ := p
    intro h
    by_cases hk : k' = k
    · subst hk
      simp only [updateFirst, if_pos rfl] at h
      rcases List.mem_cons.mp h with rfl | h'
      · exact Or.inr rfl
      · exact Or.inl (by simp [h'])
    · simp only [updateFirst, if_neg hk] at h
      rcases List.mem_cons.mp h with rfl | h'
      · exact Or.inl (by simp)
      · rcases ih h' with h'' | h''
        · exact Or.inl (by simp [h''])
        · exact Or.inr h''

/-- An entry of `removeFirst l j` is an entry of `l`. -/
theorem mem_removeFirst (l : List (String × Node)) (j : String)
    (q : String × Node) : q ∈ removeFirst l j → q ∈ l := by
  induction l with
  | nil => intro h; cases h
  | cons p rest ih =>
    obtain ⟨k', v'⟩ := p
    intro h
    by_cases hk : k' = j
    · rw [removeFirst, if_pos hk] at h
      exact List.mem_cons_of_mem _ h
    · rw [removeFirst, if_neg hk] at h
      rcases List.mem_cons.mp h with rfl | h'
      · exact List.mem_cons_self _ _
      · exact List.mem_cons_of_mem _ (ih h')

/-- Pointwise reading of `sharedFreeEntries`. -/
theorem sharedFreeEntries_iff (l : List (String × Node)) :
    sharedFreeEntries l = true ↔
      ∀ p ∈ l, ¬ p.1 = SHARED ∧ sharedFreeB p.2 = true := by
  induction l with
  | nil => simp [sharedFreeEntries]
  | cons p rest ih =>
    obtain ⟨k, v⟩ := p
    simp [sharedFreeEntries, ih, Bool.and_assoc]
    tauto

/-- Pointwise reading of `sharedFreeItems`. -/
theorem sharedFreeItems_iff (xs : List Node) :
    sharedFreeItems xs = true ↔ ∀ x ∈ xs, sharedFreeB x = true := by
  induction xs with
  | nil => simp [sharedFreeItems]
  | cons x rest ih => simp [sharedFreeItems, ih]

/-- Pointwise reading of `goodSharedEntries`. -/
theorem goodSharedEntries_iff (sd : List (String × Node)) :
    goodSharedEntries sd = true ↔
      ∀ q ∈ sd, leafNotShared q.1 = true ∧ sharedFreeB q.2 = true := by
  induction sd with
  | nil => simp [goodSharedEntries]
  | cons p rest ih =>
    obtain ⟨k, v⟩ := p
    simp [goodSharedEntries, ih, Bool.and_assoc]
    tauto

/-- `lookupFirst` misses exactly when no entry has the key. -/
theorem lookupFirst_eq_none_iff (l : List (String × Node)) (j : String) :
    lookupFirst l j = none ↔ ∀ p ∈ l, ¬ p.1 = j := by
  induction l with
  | nil => simp [lookupFirst]
  | cons p rest ih =>
    obtain ⟨k, v⟩ := p
    by_cases hk : k = j
    · subst hk
      simp [lookupFirst]
    · simp [lookupFirst, hk, ih]

/-- A predicate preserved by the action (also in its failure state) and
true of every element stays true of every element of the outcome state of
`foldItems`. -/
theorem foldItems_state_all (P : Node → Prop)
    (f : Node → Except (Err × Node) Node)
    (hf : ∀ x, P x → P (stateOf (f x))) :
    ∀ (l : List Node), (∀ x ∈ l, P x) →
      ∀ y ∈ stateOf (foldItems f l), P y := by
  intro l
  induction l with
  | nil => intro _ y hy; simp [foldItems, stateOf] at hy
  | cons x xs ih =>
    intro h y hy
    have hx := h x (by simp)
    cases hfx : f x with
    | error e =>
      obtain ⟨err, x'⟩ := e
      simp only [foldItems, hfx, stateOf] at hy
      rcases List.mem_cons.mp hy with rfl | hy'
      · have := hf x hx
        rw [hfx] at this
        exact this
      · exact h y (by simp [hy'])
    | ok x' =>
      have hx' : P x' := by
        have := hf x hx
        rw [hfx] at this
        exact this
      cases hrest : foldItems f xs with
      | ok xs' =>
        simp only [foldItems, hfx, hrest, stateOf] at hy
        rcases List.mem_cons.mp hy with rfl | hy'
        · exact hx'
        · have := ih (fun z hz => h z (by simp [hz]))
          rw [hrest] at this
          exact this y (by simpa [stateOf] using hy')
      | error e =>
        obtain ⟨err, xs'⟩ := e
        simp only [foldItems, hfx, hrest, stateOf] at hy
        rcases List.mem_cons.mp hy with rfl | hy'
        · exact hx'
        · have := ih (fun z hz => h z (by simp [hz]))
          rw [hrest] at this
          exact this y (by simpa [stateOf] using hy')

/-- Analogue of `foldItems_state_all` for `foldVals`: the action keeps the
key and preserves the predicate, so every entry of the outcome state
satisfies it. -/
theorem foldVals_state_all (P : String × Node → Prop)
    (f : String → Node → Except (Err × Node) Node)
    (hf : ∀ k v, P (k, v) → P (k, stateOf (f k v))) :
    ∀ (l : List (String × Node)), (∀ p ∈ l, P p) →
      ∀ q ∈ stateOf (foldVals f l), P q := by
  intro l
  induction l with
  | nil => intro _ q hq; simp [foldVals, stateOf] at hq
  | cons p rest ih =>
    obtain ⟨k, v⟩ := p
    intro h q hq
    have hp := h (k, v) (by simp)
    cases hfv : f k v with
    | error e =>
      obtain ⟨err, v'⟩ := e
      simp only [foldVals, hfv, stateOf] at hq
      rcases List.mem_cons.mp hq with rfl | hq'
      · have := hf k v hp
        rw [hfv] at this
        exact this
      · exact h q (by simp [hq'])
    | ok v' =>
      have hv' : P (k, v') := by
        have := hf k v hp
        rw [hfv] at this
        exact this
      cases hrest : foldVals f rest with
      | ok rest' =>
        simp only [foldVals, hfv, hrest, stateOf] at hq
        rcases List.mem_cons.mp hq with rfl | hq'
        · exact hv'
        · have := ih (fun z hz => h z (by simp [hz]))
          rw [hrest] at this
          exact this q (by simpa [stateOf] using hq')
      | error e =>
        obtain ⟨err, rest'⟩ := e
        simp only [foldVals, hfv, hrest, stateOf] at hq
        rcases List.mem_cons.mp hq with rfl | hq'
        · exact hv'
        · have := ih (fun z hz => h z (by simp [hz]))
          rw [hrest] at this
          exact this q (by simpa [stateOf] using hq')

/-- When the data and the default value are free of the reserved key and
the pattern's leaf segment is not the reserved key, `inheritAux` keeps the
tree free of the reserved key, whatever the outcome. -/
theorem inheritAux_sharedFree :
    ∀ (parts : List String) (value data : Node) (pfx : String),
      sharedFreeB data = true → sharedFreeB value = true →
      parts.getLast? ≠ some SHARED →
      sharedFreeB (stateOf (inheritAux parts value data pfx)) = true := by
  intro parts
  induction parts with
  | nil =>
    intro value data pfx hdata hval hleaf
    have hc : pyEndsWithStar (pyJoin "." ([] : List String)) = false := rfl
    have hnil : inheritAux ([] : List String) value data pfx = .ok data := by
      simp [inheritAux, hc]
    rw [hnil]
    exact hdata
  | cons k rest ih =>
    intro value data pfx hdata hval hleaf
    by_cases hstar : pyEndsWithStar (pyJoin "." (k :: rest))
    · rw [inheritAux_star _ value data pfx hstar]
      exact hdata
    · cases rest with
      | nil =>
        have hk : ¬ k = SHARED := by
          intro hEq
          exact hleaf (by simp [hEq])
        cases data with
        | mapping l =>
          rw [inheritAux_leaf_mapping k value pfx l hstar]
          simp only [stateOf, sharedFreeB]
          rw [sharedFreeEntries_iff]
          intro q hq
          rcases mem_setdefault l k value q hq with h' | h'
          · exact (sharedFreeEntries_iff l).mp (by simpa [sharedFreeB] using hdata) q h'
          · subst h'
            exact ⟨hk, hval⟩
        | seq items =>
          rw [inheritAux_leaf_seq_state k value pfx items hstar]
          simp only [sharedFreeB]
          rw [sharedFreeItems_iff]
          exact foldItems_state_all (fun x => sharedFreeB x = true)
            (fun item =>
              match item with
              | Node.mapping m => Except.ok (Node.mapping (setdefault m k value))
              | other => Except.error (make_type_error pfx k, other))
            (by
              intro x hx
              cases x with
              | mapping m =>
                simp only [stateOf, sharedFreeB]
                rw [sharedFreeEntries_iff]
                intro q hq
                rcases mem_setdefault m k value q hq with h' | h'
                · exact (sharedFreeEntries_iff m).mp
                    (by simpa [sharedFreeB] using hx) q h'
                · subst h'
                  exact ⟨hk, hval⟩
              | seq xs => exact hx
              | scalar s => exact hx)
            items ((sharedFreeItems_iff items).mp (by simpa [sharedFreeB] using hdata))
        | scalar s =>
          rw [inheritAux_leaf_scalar k value pfx s hstar]
          exact hdata
      | cons r rs =>
        have hleaf' : (r :: rs).getLast? ≠ some SHARED := by
          rw [List.getLast?_cons_cons] at hleaf
          exact hleaf
        by_cases hk : k = "*"
        · subst hk
          cases data with
          | mapping l =>
            rw [inheritAux_wild_mapping_state r rs value pfx l hstar]
            simp only [sharedFreeB]
            rw [sharedFreeEntries_iff]
            exact foldVals_state_all
              (fun q => ¬ q.1 = SHARED ∧ sharedFreeB q.2 = true)
              (fun k' v' =>
                if k' = SHARED then Except.ok v'
                else inheritAux (r :: rs) value v' (pfx ++ "." ++ "*"))
              (by
                intro k' v' hp
                have hks : ¬ k' = SHARED := hp.1
                refine ⟨hks, ?_⟩
                show sharedFreeB (stateOf
                  (if k' = SHARED then Except.ok v'
                   else inheritAux (r :: rs) value v' (pfx ++ "." ++ "*"))) = true
                rw [if_neg hks]
                exact ih value v' (pfx ++ "." ++ "*") hp.2 hval hleaf')
              l ((sharedFreeEntries_iff l).mp (by simpa [sharedFreeB] using hdata))
          | seq items =>
            rw [inheritAux_wild_other r rs value pfx (.seq items) hstar
              (by intro m hm; cases hm)]
            exact hdata
          | scalar s =>
            rw [inheritAux_wild_other r rs value pfx (.scalar s) hstar
              (by intro m hm; cases hm)]
            exact hdata
        · cases data with
          | mapping l =>
            cases hlk : lookupFirst l k with
            | none =>
              rw [inheritAux_lit_mapping k r rs value pfx l hstar hk, hlk]
              exact hdata
            | some child =>
              rw [inheritAux_lit_mapping_state k r rs value pfx l child hstar hk hlk]
              have hmem := mem_of_lookupFirst_eq_some l k child hlk
              have hentry := (sharedFreeEntries_iff l).mp
                (by simpa [sharedFreeB] using hdata) (k, child) hmem
              have hrec := ih value child (pfx ++ "." ++ k) hentry.2 hval hleaf'
              simp only [sharedFreeB]
              rw [sharedFreeEntries_iff]
              intro q hq
              rcases mem_updateFirst l k _ q hq with h' | h'
              · exact (sharedFreeEntries_iff l).mp
                  (by simpa [sharedFreeB] using hdata) q h'
              · subst h'
                exact ⟨hentry.1, hrec⟩
          | seq items =>
            rw [inheritAux_lit_seq_state k r rs value pfx items hstar hk]
            simp only [sharedFreeB]
            rw [sharedFreeItems_iff]
            exact foldItems_state_all (fun x => sharedFreeB x = true)
              (fun item =>
                match item with
                | Node.mapping m =>
                  match lookupFirst m k with
                  | none => Except.error (Err.keyErr k, Node.mapping m)
                  | some child =>
                    match inheritAux (r :: rs) value child (pfx ++ "." ++ k) with
                    | .ok child' => Except.ok (Node.mapping (updateFirst m k child'))
                    | .error (e, child') =>
                      Except.error (e, Node.mapping (updateFirst m k child'))
                | other =>
                  Except.error (Err.typeErr "object is not subscriptable", other))
              (by
                intro x hx
                cases x with
                | mapping m =>
                  cases hlk : lookupFirst m k with
                  | none => simpa [stateOf, hlk] using hx
                  | some child =>
                    have hmem := mem_of_lookupFirst_eq_some m k child hlk
                    have hentry := (sharedFreeEntries_iff m).mp
                      (by simpa [sharedFreeB] using hx) (k, child) hmem
                    have hrec := ih value child (pfx ++ "." ++ k) hentry.2 hval hleaf'
                    have hupd : sharedFreeB
                        (.mapping (updateFirst m k
                          (stateOf (inheritAux (r :: rs) value child
                            (pfx ++ "." ++ k))))) = true := by
                      simp only [sharedFreeB]
                      rw [sharedFreeEntries_iff]
                      intro q hq
                      rcases mem_updateFirst m k _ q hq with h' | h'
                      · exact (sharedFreeEntries_iff m).mp
                          (by simpa [sharedFreeB] using hx) q h'
                      · subst h'
                        exact ⟨hentry.1, hrec⟩
                    cases hcall : inheritAux (r :: rs) value child
                        (pfx ++ "." ++ k) with
                    | ok child' =>
                      rw [hcall] at hupd
                      simp only [stateOf] at hupd
                      simp only [hlk, hcall, stateOf]
                      exact hupd
                    | error e =>
                      obtain ⟨err, child'⟩ := e
                      rw [hcall] at hupd
                      simp only [stateOf] at hupd
                      simp only [hlk, hcall, stateOf]
                      exact hupd
                | seq xs => exact hx
                | scalar s => exact hx)
              items ((sharedFreeItems_iff items).mp
                (by simpa [sharedFreeB] using hdata))
          | scalar s =>
            rw [inheritAux_lit_scalar k r rs value pfx s hstar hk]
            exact hdata


/-- Wrapper of `inheritAux_sharedFree` at the `inherit_value` level, with
the leaf condition read off the pattern string. -/
theorem inherit_value_sharedFree (path : String) (value data : Node)
    (hdata : sharedFreeB data = true) (hval : sharedFreeB value = true)
    (hleaf : leafNotShared path = true) :
    sharedFreeB (stateOf (inherit_value path value data)) = true := by
  unfold inherit_value
  refine inheritAux_sharedFree (pySplitDot path) value data "" hdata hval ?_
  intro hEq
  unfold leafNotShared at hleaf
  rw [hEq] at hleaf
  simp at hleaf

/-- A successful `applyShared` run over well-formed pattern/default pairs
keeps the tree free of the reserved key. -/
theorem applyShared_sharedFree :
    ∀ (sd : List (String × Node)) (data out : Node),
      (∀ q ∈ sd, leafNotShared q.1 = true ∧ sharedFreeB q.2 = true) →
      sharedFreeB data = true →
      applyShared sd data = .ok out → sharedFreeB out = true := by
  intro sd
  induction sd with
  | nil =>
    intro data out _ hdata h
    unfold applyShared at h
    cases h
    exact hdata
  | cons q rest ih =>
    obtain ⟨p, v⟩ := q
    intro data out hgood hdata h
    have hq := hgood (p, v) (by simp)
    unfold applyShared at h
    cases hcall : inherit_value p v data with
    | ok data' =>
      rw [hcall] at h
      have hdata' : sharedFreeB data' = true := by
        have := inherit_value_sharedFree p v data hdata hq.2 hq.1
        rw [hcall] at this
        simpa [stateOf] using this
      exact ih data' out (fun s hs => hgood s (by simp [hs])) hdata' h
    | error e =>
      rw [hcall] at h
      cases h

/-- Branch equation: `apply_inheritance` on a dict. -/
theorem applyInheritance_mapping (l : List (String × Node)) :
    applyInheritance (.mapping l) =
      match step1Entries l with
      | .error (e, l') => .error (e, .mapping l')
      | .ok l' =>
        match lookupFirst l' SHARED with
        | none => .ok (.mapping l')
        | some sv =>
          match sv with
          | .mapping sd => applyShared sd (.mapping (removeFirst l' SHARED))
          | _ => .error (.attrErr "items", .mapping (removeFirst l' SHARED)) := by
  simp [applyInheritance]

/-- Branch equation: `apply_inheritance` on a non-dict argument fails like
Python, with an `AttributeError` on `.items()`. -/
theorem applyInheritance_other (n : Node) (h : ∀ l, n ≠ .mapping l) :
    applyInheritance n = .error (.attrErr "items", n) := by
  cases n with
  | mapping l => exact absurd rfl (h l)
  | seq items => simp [applyInheritance]
  | scalar s => simp [applyInheritance]

/-- The traversal of `step1Entries` preserves each entry's key, leaves the
Shared Section value untouched, and replaces every other value by one it
settled: transported along `List.Forall₂`. -/
def step1Spec (p q : String × Node) : Prop :=
  p.1 = q.1 ∧ (p.1 = SHARED → q.2 = p.2) ∧
    (¬ p.1 = SHARED → sharedFreeB q.2 = true)

/-- Along the `step1Spec` transport, the binding of the reserved key is
unchanged. -/
theorem lookup_shared_of_forall₂ :
    ∀ {l l' : List (String × Node)}, List.Forall₂ step1Spec l l' →
      lookupFirst l' SHARED = lookupFirst l SHARED := by
  intro l l' h
  induction h with
  | nil => rfl
  | cons hpq hrest ih =>
    rename_i p q tl tl'
    obtain ⟨hkey, hsh, _⟩ := hpq
    by_cases hS : q.1 = SHARED
    · have hp : p.1 = SHARED := by rw [hkey, hS]
      have hval := hsh hp
      obtain ⟨k1, v1⟩ := p
      obtain ⟨k2, v2⟩ := q
      simp only at hkey hp hS hval
      subst hkey hp hval
      simp [lookupFirst]
    · have hp : ¬ p.1 = SHARED := by rw [hkey]; exact hS
      obtain ⟨k1, v1⟩ := p
      obtain ⟨k2, v2⟩ := q
      simp only at hkey hp hS
      subst hkey
      simp [lookupFirst, hp, ih]

/-- In a well-formed dict, the value stored under the reserved key is a
well-formed Shared Section. -/
theorem goodSharedVal_of_lookup :
    ∀ (l : List (String × Node)) (sv : Node), goodEntries l = true →
      lookupFirst l SHARED = some sv → goodSharedVal sv = true := by
  intro l
  induction l with
  | nil => intro sv _ h; cases h
  | cons p rest ih =>
    obtain ⟨k, v⟩ := p
    intro sv hgood hl
    by_cases hk : k = SHARED
    · subst hk
      simp only [lookupFirst, if_pos rfl] at hl
      cases hl
      simp only [goodEntries, beq_self_eq_true, if_true, Bool.and_eq_true] at hgood
      exact hgood.1.1
    · simp only [lookupFirst, if_neg hk] at hl
      have hk' : (k == SHARED) = false := by simp [hk]
      simp only [goodEntries, hk', Bool.and_eq_true, if_false] at hgood
      exact ih sv hgood.2 hl

/-- After removing the (unique) Shared Section entry from the settled
dict, every remaining entry has a non-reserved key and a value free of the
reserved key. -/
theorem remove_shared_spec :
    ∀ {l l' : List (String × Node)}, goodEntries l = true →
      List.Forall₂ step1Spec l l' →
      ∀ q ∈ removeFirst l' SHARED, ¬ q.1 = SHARED ∧ sharedFreeB q.2 = true := by
  intro l l' hgood h
  induction h with
  | nil => intro q hq; cases hq
  | cons hpq hrest ih =>
    rename_i p qq tl tl'
    obtain ⟨hkey, _, hfree⟩ := hpq
    intro q hq
    by_cases hS : qq.1 = SHARED
    · have hp : p.1 = SHARED := by rw [hkey, hS]
      have hkeys : keysNoShared tl = true := by
        obtain ⟨k1, v1⟩ := p
        simp only at hp
        subst hp
        simp only [goodEntries, beq_self_eq_true, if_true, Bool.and_eq_true] at hgood
        exact hgood.1.2
      obtain ⟨k2, v2⟩ := qq
      simp only at hS
      subst hS
      rw [removeFirst, if_pos rfl] at hq
      obtain ⟨pr, hpr, hspec⟩ := mem_right_of_forall₂ hrest q hq
      have hprk : ¬ pr.1 = SHARED := by
        have := List.all_eq_true.mp hkeys pr hpr
        simpa using this
      refine ⟨?_, hspec.2.2 hprk⟩
      rw [← hspec.1]
      exact hprk
    · have hp : ¬ p.1 = SHARED := by rw [hkey]; exact hS
      have hgood' : goodEntries tl = true := by
        obtain ⟨k1, v1⟩ := p
        simp only at hp
        have hk' : (k1 == SHARED) = false := by simp [hp]
        simp only [goodEntries, hk', Bool.and_eq_true, if_false] at hgood
        exact hgood.2
      obtain ⟨k2, v2⟩ := qq
      simp only at hS
      rw [removeFirst, if_neg hS] at hq
      rcases List.mem_cons.mp hq with rfl | hq'
      · exact ⟨hS, hfree hp⟩
      · exact ih hgood' q hq'

/-- Branch equation: the recursion loop keeps the Shared Section entry and
moves on. -/
theorem step1Entries_cons_shared (v : Node) (rest : List (String × Node)) :
    step1Entries ((SHARED, v) :: rest) =
      match step1Entries rest with
      | .ok rest' => .ok ((SHARED, v) :: rest')
      | .error (e, rest') => .error (e, (SHARED, v) :: rest') := by
  cases hrest : step1Entries rest with
  | ok rest' =>
    cases v with
    | mapping m =>
      cases happ1 : applyInheritance (.mapping m) with
      | ok v' => simp [step1Entries, hrest, happ1]
      | error e =>
        obtain ⟨err, v'⟩ := e
        simp [step1Entries, hrest, happ1]
    | seq items =>
      cases hit : step1Items items with
      | ok items' => simp [step1Entries, hrest, hit]
      | error e =>
        obtain ⟨err, items'⟩ := e
        simp [step1Entries, hrest, hit]
    | scalar s => simp [step1Entries, hrest]
  | error e =>
    obtain ⟨err, rest'⟩ := e
    cases v with
    | mapping m =>
      cases happ1 : applyInheritance (.mapping m) with
      | ok v' => simp [step1Entries, hrest, happ1]
      | error e2 =>
        obtain ⟨err2, v'⟩ := e2
        simp [step1Entries, hrest, happ1]
    | seq items =>
      cases hit : step1Items items with
      | ok items' => simp [step1Entries, hrest, hit]
      | error e2 =>
        obtain ⟨err2, items'⟩ := e2
        simp [step1Entries, hrest, hit]
    | scalar s => simp [step1Entries, hrest]

/-- Branch equation: the recursion loop recurses into a dict value. -/
theorem step1Entries_cons_mapping (k : String) (m : List (String × Node))
    (rest : List (String × Node)) (hk : ¬ k = SHARED) :
    step1Entries ((k, .mapping m) :: rest) =
      match applyInheritance (.mapping m) with
      | .ok v' =>
        match step1Entries rest with
        | .ok rest' => .ok ((k, v') :: rest')
        | .error (e, rest') => .error (e, (k, v') :: rest')
      | .error (e, v') => .error (e, (k, v') :: rest) := by
  simp [step1Entries, hk]

/-- Branch equation: the recursion loop recurses into the dict items of a
list value. -/
theorem step1Entries_cons_seq (k : String) (items : List Node)
    (rest : List (String × Node)) (hk : ¬ k = SHARED) :
    step1Entries ((k, .seq items) :: rest) =
      match step1Items items with
      | .ok items' =>
        match step1Entries rest with
        | .ok rest' => .ok ((k, .seq items') :: rest')
        | .error (e, rest') => .error (e, (k, .seq items') :: rest')
      | .error (e, items') => .error (e, (k, .seq items') :: rest) := by
  simp [step1Entries, hk]

/-- Branch equation: the recursion loop leaves a scalar value alone. -/
theorem step1Entries_cons_scalar (k : String) (s : Prim)
    (rest : List (String × Node)) (hk : ¬ k = SHARED) :
    step1Entries ((k, .scalar s) :: rest) =
      match step1Entries rest with
      | .ok rest' => .ok ((k, .scalar s) :: rest')
      | .error (e, rest') => .error (e, (k, .scalar s) :: rest') := by
  simp [step1Entries, hk]

/-- Main induction for the amended C3, on a size bound: a successful
`apply_inheritance` on a well-formed tree returns a tree with no reserved
key anywhere. -/
theorem applyInheritance_sharedFree_aux :
    ∀ (N : Nat) (n n' : Node), sizeOf n ≤ N → goodNode n = true →
      applyInheritance n = .ok n' → sharedFreeB n' = true := by
  intro N
  induction N using Nat.strong_induction_on with
  | _ N IH =>
    intro n n' hsize hgood happ
    cases n with
    | scalar s =>
      rw [applyInheritance_other _ (by intro l hl; cases hl)] at happ
      cases happ
    | seq items =>
      rw [applyInheritance_other _ (by intro l hl; cases hl)] at happ
      cases happ
    | mapping l =>
      have hszv : ∀ p ∈ l, sizeOf p.2 < N := by
        intro p hp
        have h1 := List.sizeOf_lt_of_mem hp
        have h2 : sizeOf (Node.mapping l) = 1 + sizeOf l := by simp
        obtain ⟨k, v⟩ := p
        have h3 : sizeOf ((k, v) : String × Node) = 1 + sizeOf k + sizeOf v := by
          simp
        rw [h3] at h1
        rw [h2] at hsize
        simp only
        omega
      have hs2 : ∀ (xs : List Node) (xs' : List Node),
          (∀ x ∈ xs, sizeOf x < N) → goodItems xs = true →
          step1Items xs = .ok xs' → ∀ y ∈ xs', sharedFreeB y = true := by
        intro xs
        induction xs with
        | nil =>
          intro xs' _ _ h
          simp only [step1Items] at h
          cases h
          intro y hy
          cases hy
        | cons x tail ihx =>
          intro xs' hsz hgood2 h
          cases x with
          | mapping m =>
            have hgx : goodEntries m = true ∧ goodItems tail = true := by
              simpa [goodItems, Bool.and_eq_true] using hgood2
            simp only [step1Items] at h
            split at h
            next x' happ1 =>
              split at h
              next tail' hrest =>
                cases h
                intro y hy
                rcases List.mem_cons.mp hy with rfl | hy'
                · exact IH (sizeOf (Node.mapping m))
                    (hsz (Node.mapping m) (by simp)) (Node.mapping m) y le_rfl
                    (by simpa [goodNode] using hgx.1) happ1
                · exact ihx tail' (fun z hz => hsz z (by simp [hz])) hgx.2 hrest y hy'
              next e tail' hrest => cases h
            next e x' happ1 => cases h
          | seq ys =>
            have hgx : sharedFreeB (Node.seq ys) = true ∧ goodItems tail = true := by
              simpa [goodItems, Bool.and_eq_true] using hgood2
            simp only [step1Items] at h
            split at h
            next tail' hrest =>
              cases h
              intro y hy
              rcases List.mem_cons.mp hy with rfl | hy'
              · exact hgx.1
              · exact ihx tail' (fun z hz => hsz z (by simp [hz])) hgx.2 hrest y hy'
            next e tail' hrest => cases h
          | scalar s =>
            have hgx : goodItems tail = true := by
              simpa [goodItems, Bool.and_eq_true, sharedFreeB] using hgood2
            simp only [step1Items] at h
            split at h
            next tail' hrest =>
              cases h
              intro y hy
              rcases List.mem_cons.mp hy with rfl | hy'
              · simp [sharedFreeB]
              · exact ihx tail' (fun z hz => hsz z (by simp [hz])) hgx hrest y hy'
            next e tail' hrest => cases h
      have hs1 : ∀ (l₀ : List (String × Node)) (l₀' : List (String × Node)),
          (∀ p ∈ l₀, sizeOf p.2 < N) → goodEntries l₀ = true →
          step1Entries l₀ = .ok l₀' → List.Forall₂ step1Spec l₀ l₀' := by
        intro l₀
        induction l₀ with
        | nil =>
          intro l₀' _ _ h
          simp only [step1Entries] at h
          cases h
          exact List.Forall₂.nil
        | cons p tail ihp =>
          obtain ⟨k, v⟩ := p
          intro l₀' hsz1 hgood1 h
          by_cases hk : k = SHARED
          · subst hk
            rw [step1Entries_cons_shared] at h
            have hgtail : goodEntries tail = true := by
              simp only [goodEntries, Bool.and_eq_true] at hgood1
              exact hgood1.2
            split at h
            next tail' hrest =>
              cases h
              exact List.Forall₂.cons
                ⟨rfl, fun _ => rfl, fun hn => absurd rfl hn⟩
                (ihp tail' (fun z hz => hsz1 z (by simp [hz])) hgtail hrest)
            next e tail' hrest => cases h
          · have hk' : (k == SHARED) = false := by simp [hk]
            have hgv : goodVal v = true ∧ goodEntries tail = true := by
              simp only [goodEntries, hk', if_false, Bool.and_eq_true] at hgood1
              exact hgood1
            cases v with
            | mapping m =>
              rw [step1Entries_cons_mapping k m tail hk] at h
              split at h
              next v' happ1 =>
                split at h
                next tail' hrest =>
                  cases h
                  refine List.Forall₂.cons
                    ⟨rfl, fun hS => absurd hS hk, fun _ => ?_⟩
                    (ihp tail' (fun z hz => hsz1 z (by simp [hz])) hgv.2 hrest)
                  exact IH (sizeOf (Node.mapping m))
                    (hsz1 (k, Node.mapping m) (by simp)) (Node.mapping m) v' le_rfl
                    (by simpa [goodNode, goodVal] using hgv.1) happ1
                next e tail' hrest => cases h
              next e v' happ1 => cases h
            | seq items =>
              rw [step1Entries_cons_seq k items tail hk] at h
              split at h
              next items' hitems =>
                split at h
                next tail' hrest =>
                  cases h
                  refine List.Forall₂.cons
                    ⟨rfl, fun hS => absurd hS hk, fun _ => ?_⟩
                    (ihp tail' (fun z hz => hsz1 z (by simp [hz])) hgv.2 hrest)
                  have hszx : ∀ x ∈ items, sizeOf x < N := by
                    intro x hx
                    have h1 := List.sizeOf_lt_of_mem hx
                    have h2 := hsz1 (k, Node.seq items) (by simp)
                    have h3 : sizeOf (Node.seq items) = 1 + sizeOf items := by simp
                    simp only at h2
                    omega
                  have hall := hs2 items items' hszx
                    (by simpa [goodVal] using hgv.1) hitems
                  simp only [sharedFreeB]
                  exact (sharedFreeItems_iff items').mpr hall
                next e tail' hrest => cases h
              next e items' hitems => cases h
            | scalar s =>
              rw [step1Entries_cons_scalar k s tail hk] at h
              split at h
              next tail' hrest =>
                cases h
                exact List.Forall₂.cons
                  ⟨rfl, fun hS => absurd hS hk, fun _ => by simp [sharedFreeB]⟩
                  (ihp tail' (fun z hz => hsz1 z (by simp [hz])) hgv.2 hrest)
              next e tail' hrest => cases h
      have hgood' : goodEntries l = true := by simpa [goodNode] using hgood
      rw [applyInheritance_mapping l] at happ
      split at happ
      next e l' hstep => cases happ
      next l' hstep =>
        have hforall := hs1 l l' hszv hgood' hstep
        split at happ
        next hnone =>
          cases happ
          simp only [sharedFreeB]
          rw [sharedFreeEntries_iff]
          intro q hq
          have hkey := (lookupFirst_eq_none_iff l' SHARED).mp hnone q hq
          obtain ⟨p, hp, hspec⟩ := mem_right_of_forall₂ hforall q hq
          have hpk : ¬ p.1 = SHARED := by rw [hspec.1]; exact hkey
          exact ⟨hkey, hspec.2.2 hpk⟩
        next sv hsv =>
          split at happ
          next sd =>
            have hsv_l : lookupFirst l SHARED = some (.mapping sd) := by
              rw [← lookup_shared_of_forall₂ hforall]
              exact hsv
            have hgsv := goodSharedVal_of_lookup l (.mapping sd) hgood' hsv_l
            have hsd : goodSharedEntries sd = true := by
              simpa [goodSharedVal] using hgsv
            have hrem := remove_shared_spec hgood' hforall
            have hremfree : sharedFreeB (.mapping (removeFirst l' SHARED)) = true := by
              simp only [sharedFreeB]
              rw [sharedFreeEntries_iff]
              exact hrem
            exact applyShared_sharedFree sd (.mapping (removeFirst l' SHARED)) n'
              ((goodSharedEntries_iff sd).mp hsd) hremfree happ
          next hnm => cases happ

/-- C3 as amended: on every well-formed input — Shared Sections are dicts
whose patterns do not write the reserved key and whose default values are
free of it, a dict holds at most one Shared Section entry, and dicts the
traversal cannot reach (nested inside lists inside lists) are already free
of it — a successful `apply_inheritance` returns a tree in which no
reachable dict binds the reserved Shared Section key.  (As stated the
claim is false: default values are copied verbatim, so a Shared Section
inside a copied value survives — see the counterexample.) -/
theorem claim_C3_amended_no_shared_left (root out : Node)
    (hgood : goodNode root = true) (happ : applyInheritance root = .ok out) :
    sharedFreeB out = true :=
  applyInheritance_sharedFree_aux (sizeOf root) root out le_rfl hgood happ

/-- Witness for the amended C3 at a concrete input. -/
theorem claim_C3_amended_no_shared_left_witness :
    sharedFreeB (.mapping [("a", .mapping [("k", .scalar (.str "v"))])]) = true :=
  claim_C3_amended_no_shared_left
    (.mapping [(SHARED, .mapping [("*.k", .scalar (.str "v"))]),
               ("a", .mapping [])])
    (.mapping [("a", .mapping [("k", .scalar (.str "v"))])])
    (by simp [goodNode, goodEntries, goodVal, goodItems, goodSharedVal,
      goodSharedEntries, keysNoShared, leafNotShared, sharedFreeB,
      sharedFreeEntries, sharedFreeItems, SHARED, pySplitDot, splitDotAux])
    (by simp [applyInheritance, step1Entries, step1Items, applyShared,
      inherit_value, inheritAux, SHARED, lookupFirst, removeFirst, setdefault,
      updateFirst, foldVals, foldItems, pySplitDot, splitDotAux, pyJoin,
      pyEndsWithStar])

end Configcraft
